import Mathlib

set_option maxHeartbeats 1000000

/-!
Shallow embedding of the `path_navigator` crate (graph construction in
`src/vertex.rs`, shortest-path search in `src/dijkstra.rs`, geodesic cost in
`src/components.rs`, radius table in `src/data.rs`, error kinds in
`src/errors.rs`), together with theorems settling the specification claims.

Modelling choices, stated once here:
* `f64` coordinate values are modelled by an arbitrary type `α` with decidable
  equality (the code compares coordinates only with `==`); concrete instances
  use `ℤ`.
* `f64` cost values flowing through the graph and the search are modelled by
  `ℚ`, with `f64::MAX` / `f64::INFINITY` modelled as `⊤` in `WithTop ℚ`; the
  haversine cost routine `SphereConnection::cost` composed with the radius
  lookup is abstracted as a parameter `κ : SphereConnection α → ℚ`, since the
  search and the construction only ever pass cost values around and compare
  them.  The haversine formula itself is embedded separately over `ℝ`
  (`SphereConnection.cost`) for the claims about the formula.
* `HashMap<usize, _>` is modelled as an association list iterated in insertion
  order (`HashMap` iteration order is unspecified in the source; see spec §9).
* The `while` loop of `search_for_shortest_path_in_vertex` and the `while` loop
  of `calculate_path` are modelled with a fuel parameter; `calculate_path`
  returns `none` when the search has not settled the finish index within the
  given fuel (the Rust code would still be looping), and `find_shortest_path`
  returns `none` (outer layer) in that case, `some r` when the Rust function
  returns with result `r : Option _`.
-/

/-- Mirrors `CelestialObject` in `src/data.rs`. -/
inductive CelestialObject : Type
  | MERCURY
  | VENUS
  | EARTH
  | MARS
  | JUPITER
  | SATURN
  | URANUS
  | NEPTUNE
deriving DecidableEq

/-- Mirrors `get_radius_km` in `src/data.rs`. -/
def get_radius_km : CelestialObject → ℚ
  | .MERCURY => 2439.7
  | .VENUS => 6051.8
  | .EARTH => 6371
  | .MARS => 3389.5
  | .JUPITER => 69911
  | .SATURN => 58232
  | .URANUS => 25362
  | .NEPTUNE => 24622

/-- Mirrors the error kinds declared by the `error_chain!` block in `src/errors.rs`. -/
inductive ErrorKind : Type
  | InvalidParameter
  | DataItemIncomplete
  | DataItemIncorrect
deriving DecidableEq

/-- Mirrors `SpherePoint` in `src/components.rs`; `PartialEq` is exact field equality. -/
structure SpherePoint (α : Type) where
  lat : α
  lng : α
deriving DecidableEq

/-- Mirrors `SphereConnection` in `src/components.rs`. -/
structure SphereConnection (α : Type) where
  start : SpherePoint α
  finish : SpherePoint α
deriving DecidableEq

/-- Mirrors `f64::to_radians`. -/
noncomputable def toRadians (x : ℝ) : ℝ := x * (Real.pi / 180)

/-- Mirrors `f64::atan2`: `y.atan2 x` is the argument of the complex number `x + i y`. -/
noncomputable def atan2 (y x : ℝ) : ℝ := Complex.arg ⟨x, y⟩

/-- Mirrors `SphereConnection::cost` in `src/components.rs` (haversine distance),
with `f64` arithmetic idealised as real arithmetic. -/
noncomputable def SphereConnection.cost (c : SphereConnection ℝ) (radius : ℝ) : ℝ :=
  let fi := toRadians (c.finish.lat - c.start.lat)
  let fi_1 := toRadians c.start.lat
  let fi_2 := toRadians c.finish.lat
  let lambda := toRadians (c.finish.lng - c.start.lng)
  let a := Real.sin (fi / 2) ^ 2 + Real.cos fi_1 * Real.cos fi_2 * Real.sin (lambda / 2) ^ 2
  let cAngle := 2 * atan2 (Real.sqrt a) (Real.sqrt (1 - a))
  radius * cAngle

/-- Mirrors `GraphRelation` in `src/vertex.rs` (cost values modelled as `ℚ`). -/
structure GraphRelation : Type where
  vertex_index : ℕ
  cost : ℚ
deriving DecidableEq

/-- Mirrors `VertexSpherePoint` in `src/vertex.rs`. -/
structure VertexSpherePoint (α : Type) where
  coordinates : SpherePoint α
  graphs : List GraphRelation
deriving DecidableEq

/-- Mirrors `VertexBuffer` in `src/vertex.rs`. -/
structure VertexBuffer (α : Type) where
  celestial_object : CelestialObject
  vector : List (VertexSpherePoint α)
deriving DecidableEq

variable {α : Type} [DecidableEq α]

/-- Mirrors `VertexSpherePoint::has_point`. -/
def VertexSpherePoint.has_point (v : VertexSpherePoint α) (other : SpherePoint α) : Bool :=
  decide (v.coordinates = other)

/-- Mirrors `self.vector.iter().position(|r| r.has_point(p))` in `VertexBuffer::append`. -/
def positionOfPoint : List (VertexSpherePoint α) → SpherePoint α → Option ℕ
  | [], _ => none
  | v :: rest, p => if v.has_point p then some 0 else (positionOfPoint rest p).map (· + 1)

/-- Mirrors `VertexBuffer::add`: push a node with empty adjacency, return its index. -/
def VertexBuffer.add (vb : VertexBuffer α) (coordinates : SpherePoint α) :
    VertexBuffer α × ℕ :=
  ({ vb with vector := vb.vector ++ [⟨coordinates, []⟩] }, vb.vector.length)

/-- Mirrors `VertexBuffer::update`: push `(index_related, cost)` into the adjacency of
`index_to_update` unless an entry for `index_related` is already there.  (The Rust code
indexes `self.vector[*index_to_update]`, which panics out of bounds; callers always pass
in-range indices, and the embedding returns the buffer unchanged in that case.) -/
def VertexBuffer.update (vb : VertexBuffer α) (index_to_update index_related : ℕ)
    (cost : ℚ) : VertexBuffer α :=
  match vb.vector.get? index_to_update with
  | none => vb
  | some node =>
      if node.graphs.any fun rel => rel.vertex_index == index_related then vb
      else
        { vb with
          vector := vb.vector.set index_to_update
            ⟨node.coordinates, node.graphs ++ [⟨index_related, cost⟩]⟩ }

/-- Mirrors `VertexBuffer::append`; `κ` stands for
`|conn| conn.cost(get_radius_km(&self.celestial_object))`. -/
def VertexBuffer.append (κ : SphereConnection α → ℚ) (vb : VertexBuffer α)
    (connection : SphereConnection α) : VertexBuffer α :=
  let start_index_option := positionOfPoint vb.vector connection.start
  let end_index_option := positionOfPoint vb.vector connection.finish
  let resolved_start : VertexBuffer α × ℕ :=
    match start_index_option with
    | some v => (vb, v)
    | none => vb.add connection.start
  let resolved_end : VertexBuffer α × ℕ :=
    match end_index_option with
    | some v => (resolved_start.1, v)
    | none => resolved_start.1.add connection.finish
  let cost := κ connection
  (resolved_end.1.update resolved_start.2 resolved_end.2 cost).update
    resolved_end.2 resolved_start.2 cost

/-- Mirrors `VertexBuffer::is_connections_vec_correct`. -/
def is_connections_vec_correct (connections : List (SphereConnection α)) : Bool :=
  if connections.length = 0 then false
  else connections.all fun c => !(decide (c.start = c.finish))

/-- The construction loop of `VertexBuffer::new`: fold `append` over the connections,
starting from a buffer with an empty node vector. -/
def buildBuffer (κ : SphereConnection α → ℚ) (celestial_object : CelestialObject)
    (connections : List (SphereConnection α)) : VertexBuffer α :=
  connections.foldl (VertexBuffer.append κ) ⟨celestial_object, []⟩

/-- Mirrors `VertexBuffer::new`. -/
def VertexBuffer.new (κ : SphereConnection α → ℚ) (connections : List (SphereConnection α))
    (celestial_object : CelestialObject) : Except ErrorKind (VertexBuffer α) :=
  if ¬ is_connections_vec_correct connections then .error .DataItemIncorrect
  else .ok (buildBuffer κ celestial_object connections)

/-- Cost values as stored in the transient search state: `f64` with the sentinel
`f64::MAX` / `f64::INFINITY` modelled as `⊤`. -/
abbrev CostVal := WithTop ℚ

/-- Association-list lookup, modelling `HashMap` indexing / `contains_key`. -/
def lookupA {β : Type} : List (ℕ × β) → ℕ → Option β
  | [], _ => none
  | (k, v) :: rest, key => if k = key then some v else lookupA rest key

/-- Association-list in-place value replacement, modelling `*map.get_mut(&k).unwrap() = v`
(no-op when the key is absent, where the Rust code would panic; invariants rule it out). -/
def updateA {β : Type} : List (ℕ × β) → ℕ → β → List (ℕ × β)
  | [], _, _ => []
  | (k, v) :: rest, key, val =>
      if k = key then (k, val) :: rest else (k, v) :: updateA rest key val

/-- Association-list insertion, modelling `HashMap::insert` (overwrite when present,
append in iteration order when absent). -/
def insertH {β : Type} (l : List (ℕ × β)) (key : ℕ) (val : β) : List (ℕ × β) :=
  if (lookupA l key).isSome then updateA l key val else l ++ [(key, val)]

/-- Mirrors the `Dijkstra` struct in `src/dijkstra.rs`. -/
structure Dijkstra where
  costs : List (ℕ × CostVal)
  parents : List (ℕ × Option ℕ)
  start_index : ℕ
  finish_index : ℕ
  processed : List ℕ
  cheapest_vertex_index : ℕ
deriving DecidableEq

/-- Mirrors `Dijkstra::new`. -/
def Dijkstra.new (start_index finish_index : ℕ) : Dijkstra where
  costs := insertH (insertH [] start_index (0 : CostVal)) finish_index (⊤ : CostVal)
  parents := insertH [] finish_index none
  start_index := start_index
  finish_index := finish_index
  processed := [start_index]
  cheapest_vertex_index := start_index

/-- One pass of the relaxation `for` loop body in `search_for_shortest_path_in_vertex`,
for a single adjacency entry `g` of the current cheapest vertex. -/
def relaxOne (s : Dijkstra) (g : GraphRelation) : Dijkstra :=
  if g.vertex_index ∈ s.processed then s
  else
    let parent_cost : CostVal := (lookupA s.costs s.cheapest_vertex_index).getD ⊤
    let child_cost : CostVal := parent_cost + (g.cost : ℚ)
    match lookupA s.costs g.vertex_index with
    | some existing =>
        if existing > child_cost then
          { s with
            costs := updateA s.costs g.vertex_index child_cost
            parents := updateA s.parents g.vertex_index (some s.cheapest_vertex_index) }
        else s
    | none =>
        { s with
          costs := insertH s.costs g.vertex_index child_cost
          parents := insertH s.parents g.vertex_index (some s.cheapest_vertex_index) }

/-- The whole relaxation `for` loop: fold `relaxOne` over the adjacency list of the
current cheapest vertex (out-of-range index, where the Rust code would panic, is a no-op). -/
def relaxAll (vb : VertexBuffer α) (s : Dijkstra) : Dijkstra :=
  match vb.vector.get? s.cheapest_vertex_index with
  | none => s
  | some node => node.graphs.foldl relaxOne s

/-- The minimum-unsettled-cost scan (`min_cost` / `min_value_index` accumulator loop). -/
def selectMinAux : List (ℕ × CostVal) → List ℕ → CostVal × Option ℕ → CostVal × Option ℕ
  | [], _, acc => acc
  | (k, v) :: rest, processed, acc =>
      if k ∈ processed then selectMinAux rest processed acc
      else if acc.1 > v then selectMinAux rest processed (v, some k)
      else selectMinAux rest processed acc

/-- The result of the minimum-unsettled-cost scan, started at `min_cost = f64::MAX`. -/
def selectMin (costs : List (ℕ × CostVal)) (processed : List ℕ) : Option ℕ :=
  (selectMinAux costs processed ((⊤ : CostVal), none)).2

/-- One iteration of the `while` loop of `search_for_shortest_path_in_vertex`:
relax all neighbours of the cheapest vertex, then select the minimum-cost unsettled
node; if one exists it becomes the cheapest vertex and is pushed onto `processed`,
otherwise the state is left unchanged (which is exactly what the Rust loop body does). -/
def searchStep (vb : VertexBuffer α) (s : Dijkstra) : Dijkstra :=
  let s1 := relaxAll vb s
  match selectMin s1.costs s1.processed with
  | some x => { s1 with cheapest_vertex_index := x, processed := s1.processed ++ [x] }
  | none => s1

/-- The fuel-indexed `while !processed.contains(&finish_index)` loop. -/
def searchGo (vb : VertexBuffer α) : ℕ → Dijkstra → Dijkstra
  | 0, s => s
  | fuel + 1, s =>
      if s.finish_index ∈ s.processed then s
      else searchGo vb fuel (searchStep vb s)

/-- The path-reconstruction `while` loop of `Dijkstra::calculate_path`: walk parent
links from `actual` back to `start_index`, pushing a connection per step (in walk
order; the caller reverses).  `none` models a panic (missing parent link /
out-of-range node index) or fuel exhaustion. -/
def walkParents (vb : VertexBuffer α) (s : Dijkstra) :
    ℕ → ℕ → SpherePoint α → List (SphereConnection α) → Option (List (SphereConnection α))
  | 0, _, _, _ => none
  | fuel + 1, actual, current_end, acc =>
      if actual = s.start_index then some acc
      else
        match lookupA s.parents actual with
        | some (some p) =>
            match vb.vector.get? p with
            | some node =>
                walkParents vb s fuel p node.coordinates (acc ++ [⟨node.coordinates, current_end⟩])
            | none => none
        | _ => none

/-- Mirrors `Dijkstra::calculate_path`: run the search, then reconstruct.  Returns
`none` when the search has not settled `finish_index` within `fuel` iterations (the
Rust loop would still be running) or the walk fails. -/
def Dijkstra.calculate_path (vb : VertexBuffer α) (s0 : Dijkstra) (fuel : ℕ) :
    Option (List (SphereConnection α)) :=
  let s := searchGo vb fuel s0
  if s.finish_index ∈ s.processed then
    match vb.vector.get? s.finish_index with
    | none => none
    | some fnode => (walkParents vb s fuel s.finish_index fnode.coordinates []).map List.reverse
  else none

/-- The accumulator loop of `get_closest_point` (`index` / `distance` pair, distance
started at `f64::INFINITY`, strict `<` update). -/
def gcpAux (κ : SphereConnection α → ℚ) (point : SpherePoint α) :
    List (VertexSpherePoint α) → ℕ → ℕ × CostVal → ℕ × CostVal
  | [], _, acc => acc
  | node :: rest, i, acc =>
      let local_distance : CostVal := ((κ ⟨point, node.coordinates⟩ : ℚ) : CostVal)
      if local_distance < acc.2 then gcpAux κ point rest (i + 1) (i, local_distance)
      else gcpAux κ point rest (i + 1) acc

/-- Mirrors `get_closest_point` in `src/dijkstra.rs`. -/
def get_closest_point (κ : SphereConnection α → ℚ) (point : SpherePoint α)
    (vb : VertexBuffer α) : ℕ :=
  (gcpAux κ point vb.vector 0 (0, (⊤ : CostVal))).1

/-- Mirrors `find_shortest_path` in `src/dijkstra.rs`.  The outer `Option` is the
termination layer of the embedding: `some r` means the Rust function returns `r`,
`none` means the underlying search is still looping (or reconstruction panicked)
after `fuel` iterations. -/
def find_shortest_path (κ : SphereConnection α → ℚ) (start finish : SpherePoint α)
    (vb : VertexBuffer α) (fuel : ℕ) : Option (Option (List (SphereConnection α))) :=
  if start = finish ∨ vb.vector.length = 0 then some none
  else
    let start_index := get_closest_point κ start vb
    let finish_index := get_closest_point κ finish vb
    if start_index = finish_index then some none
    else (Dijkstra.calculate_path vb (Dijkstra.new start_index finish_index) fuel).map some

/-- Shorthand for integer-coordinate points used in concrete instances. -/
def pZ (a b : ℤ) : SpherePoint ℤ := ⟨a, b⟩

/-- Shorthand for integer-coordinate connections used in concrete instances. -/
def cZ (a b c d : ℤ) : SphereConnection ℤ := ⟨⟨a, b⟩, ⟨c, d⟩⟩

/-- A graph input whose two connections form two disconnected components. -/
def twoCompConnections : List (SphereConnection ℤ) := [cZ 0 0 1 1, cZ 5 5 6 6]

/-- A concrete stand-in cost function (taxicab distance on integer coordinates),
used by witnesses to instantiate the abstract cost parameter `κ`. -/
def taxi (c : SphereConnection ℤ) : ℚ :=
  ((c.start.lat - c.finish.lat).natAbs : ℚ) + ((c.start.lng - c.finish.lng).natAbs : ℚ)

/-- The latitude chain of the end-to-end grid scenario: unit steps `(0,0)` to `(10,0)`. -/
def latChain : List (SphereConnection ℤ) :=
  [cZ 0 0 1 0, cZ 1 0 2 0, cZ 2 0 3 0, cZ 3 0 4 0, cZ 4 0 5 0,
   cZ 5 0 6 0, cZ 6 0 7 0, cZ 7 0 8 0, cZ 8 0 9 0, cZ 9 0 10 0]

/-- The longitude chain of the end-to-end grid scenario: unit steps `(0,0)` to `(0,10)`. -/
def lngChain : List (SphereConnection ℤ) :=
  [cZ 0 0 0 1, cZ 0 1 0 2, cZ 0 2 0 3, cZ 0 3 0 4, cZ 0 4 0 5,
   cZ 0 5 0 6, cZ 0 6 0 7, cZ 0 7 0 8, cZ 0 8 0 9, cZ 0 9 0 10]

/-- The diagonal chain of the end-to-end grid scenario: steps `(i,i)` to `(i+1,i+1)`. -/
def diagChain : List (SphereConnection ℤ) :=
  [cZ 0 0 1 1, cZ 1 1 2 2, cZ 2 2 3 3, cZ 3 3 4 4, cZ 4 4 5 5,
   cZ 5 5 6 6, cZ 6 6 7 7, cZ 7 7 8 8, cZ 8 8 9 9, cZ 9 9 10 10]

/-- The connection list of the end-to-end grid scenario: the three chains in order. -/
def gridConnections : List (SphereConnection ℤ) := latChain ++ lngChain ++ diagChain

/-- The node coordinates of the grid graph in insertion order (indices `0`..`30`). -/
def gridCoords : List (SpherePoint ℤ) :=
  [pZ 0 0, pZ 1 0, pZ 2 0, pZ 3 0, pZ 4 0, pZ 5 0, pZ 6 0, pZ 7 0, pZ 8 0, pZ 9 0, pZ 10 0,
   pZ 0 1, pZ 0 2, pZ 0 3, pZ 0 4, pZ 0 5, pZ 0 6, pZ 0 7, pZ 0 8, pZ 0 9, pZ 0 10,
   pZ 1 1, pZ 2 2, pZ 3 3, pZ 4 4, pZ 5 5, pZ 6 6, pZ 7 7, pZ 8 8, pZ 9 9, pZ 10 10]

/-- The grid graph built (for an arbitrary cost function and body) from the grid
connection list. -/
def gridGraph (κ : SphereConnection ℤ → ℚ) (celestial_object : CelestialObject) :
    VertexBuffer ℤ :=
  buildBuffer κ celestial_object gridConnections

/-- The node coordinates of a buffer, in index order. -/
def coordsList (vb : VertexBuffer α) : List (SpherePoint α) := vb.vector.map (·.coordinates)

/-- The adjacency list of node `i` (empty when `i` is out of range). -/
def graphsAt (vb : VertexBuffer α) (i : ℕ) : List GraphRelation :=
  ((vb.vector.get? i).map (·.graphs)).getD []

/-- The coordinates of node `i`, when in range. -/
def coordsAt (vb : VertexBuffer α) (i : ℕ) : Option (SpherePoint α) :=
  (vb.vector.get? i).map (·.coordinates)

/-- The neighbour indices of node `i`. -/
def nbrIdxList (vb : VertexBuffer α) (i : ℕ) : List ℕ :=
  (graphsAt vb i).map (·.vertex_index)

/-- All endpoint coordinates of a connection list, in order. -/
def endpointsOf : List (SphereConnection α) → List (SpherePoint α)
  | [] => []
  | c :: rest => c.start :: c.finish :: endpointsOf rest

/-- Well-formedness invariants of a constructed `VertexBuffer`: adjacency indices in
range, node coordinates pairwise distinct, adjacency symmetric with equal costs, and
no node adjacent to itself. -/
structure WfB (vb : VertexBuffer α) : Prop where
  wf_idx : ∀ i, ∀ g ∈ graphsAt vb i, g.vertex_index < vb.vector.length
  coords_nodup : (coordsList vb).Nodup
  symm : ∀ i j c, (⟨j, c⟩ : GraphRelation) ∈ graphsAt vb i →
    (⟨i, c⟩ : GraphRelation) ∈ graphsAt vb j
  noself : ∀ i, ∀ g ∈ graphsAt vb i, g.vertex_index ≠ i

/-- Invariants of the transient search state, relative to the buffer being searched.
They hold for `Dijkstra::new`'s state (for distinct in-range endpoints) and are
preserved by every iteration of the search loop. -/
structure SInv (vb : VertexBuffer α) (s : Dijkstra) : Prop where
  proc_nodup : s.processed.Nodup
  start_mem : s.start_index ∈ s.processed
  cheapest_mem : s.cheapest_vertex_index ∈ s.processed
  costs_keys_nodup : (s.costs.map Prod.fst).Nodup
  keys_lt : ∀ kv ∈ s.costs, kv.1 < vb.vector.length
  proc_lt : ∀ k ∈ s.processed, k < vb.vector.length
  finish_lt : s.finish_index < vb.vector.length
  proc_cost : ∀ k ∈ s.processed, ∃ c, lookupA s.costs k = some c ∧ c < ⊤
  covered : ∀ k ∈ s.processed, k ≠ s.cheapest_vertex_index →
    ∀ g ∈ graphsAt vb k, g.vertex_index ∈ s.processed ∨
      ∃ c, lookupA s.costs g.vertex_index = some c ∧ c < ⊤
  parent_good : ∀ k p, lookupA s.parents k = some (some p) →
    p ∈ s.processed ∧ k ∈ nbrIdxList vb p
  parent_order : ∀ k p, lookupA s.parents k = some (some p) → k ∈ s.processed →
    s.processed.indexOf p < s.processed.indexOf k
  settled_parent : ∀ k, k ∈ s.processed → k ≠ s.start_index →
    ∃ p, lookupA s.parents k = some (some p)
  cost_parent : ∀ k c, lookupA s.costs k = some c → c < ⊤ → k ≠ s.start_index →
    ∃ p, lookupA s.parents k = some (some p)
  parents_key : ∀ k c, lookupA s.costs k = some c →
    k = s.start_index ∨ (lookupA s.parents k).isSome

/-- A walk in the buffer: consecutive list entries are adjacent. -/
def AdjChain (vb : VertexBuffer α) (l : List ℕ) : Prop :=
  List.Chain' (fun a b => b ∈ nbrIdxList vb a) l

/-- The part of the search-state invariants that the relaxation loop manipulates:
cost-table keys duplicate-free and in range, settled nodes having finite recorded
costs, and the predecessor-table invariants (parents settled and adjacent, settled
strictly after their parents, every settled or finitely-costed non-start node having
a predecessor, and every cost key other than start having a predecessor entry). -/
def SBase (vb : VertexBuffer α) (s : Dijkstra) : Prop :=
  ((s.costs.map Prod.fst).Nodup) ∧
  (∀ kv ∈ s.costs, kv.1 < vb.vector.length) ∧
  (∀ k ∈ s.processed, ∃ c, lookupA s.costs k = some c ∧ c < ⊤) ∧
  (∀ k p, lookupA s.parents k = some (some p) → p ∈ s.processed ∧ k ∈ nbrIdxList vb p) ∧
  (∀ k p, lookupA s.parents k = some (some p) → k ∈ s.processed →
    s.processed.indexOf p < s.processed.indexOf k) ∧
  (∀ k, k ∈ s.processed → k ≠ s.start_index → ∃ p, lookupA s.parents k = some (some p)) ∧
  (∀ k c, lookupA s.costs k = some c → c < ⊤ → k ≠ s.start_index →
    ∃ p, lookupA s.parents k = some (some p)) ∧
  (∀ k c, lookupA s.costs k = some c → k = s.start_index ∨ (lookupA s.parents k).isSome)

/-- A fully-resolved predecessor chain from `actual` back to the start index: each
step records the parent index and its coordinates. -/
def ParentChain (vb : VertexBuffer α) (s : Dijkstra) : ℕ → List (ℕ × SpherePoint α) → Prop
  | actual, [] => actual = s.start_index
  | actual, (p, c) :: rest =>
      actual ≠ s.start_index ∧ lookupA s.parents actual = some (some p) ∧
      coordsAt vb p = some c ∧ ParentChain vb s p rest

/-- The connections emitted by the reconstruction walk along a predecessor chain,
in walk (push) order. -/
def walkEmit : List (ℕ × SpherePoint α) → SpherePoint α → List (SphereConnection α)
  | [], _ => []
  | (_, c) :: rest, current_end => ⟨c, current_end⟩ :: walkEmit rest c

/-- The structure (coordinates and neighbour indices) of the grid graph, by node index. -/
def gridStructList : List (SpherePoint ℤ × List ℕ) :=
  [(pZ 0 0, [1, 11, 21]), (pZ 1 0, [0, 2]), (pZ 2 0, [1, 3]), (pZ 3 0, [2, 4]),
   (pZ 4 0, [3, 5]), (pZ 5 0, [4, 6]), (pZ 6 0, [5, 7]), (pZ 7 0, [6, 8]),
   (pZ 8 0, [7, 9]), (pZ 9 0, [8, 10]), (pZ 10 0, [9]),
   (pZ 0 1, [0, 12]), (pZ 0 2, [11, 13]), (pZ 0 3, [12, 14]), (pZ 0 4, [13, 15]),
   (pZ 0 5, [14, 16]), (pZ 0 6, [15, 17]), (pZ 0 7, [16, 18]), (pZ 0 8, [17, 19]),
   (pZ 0 9, [18, 20]), (pZ 0 10, [19]),
   (pZ 1 1, [0, 22]), (pZ 2 2, [21, 23]), (pZ 3 3, [22, 24]), (pZ 4 4, [23, 25]),
   (pZ 5 5, [24, 26]), (pZ 6 6, [25, 27]), (pZ 7 7, [26, 28]), (pZ 8 8, [27, 29]),
   (pZ 9 9, [28, 30]), (pZ 10 10, [29])]

/-- The node indices of the diagonal chain, from start node `0` to finish node `30`. -/
def diagIdxChain : List ℕ := [0, 21, 22, 23, 24, 25, 26, 27, 28, 29, 30]

/-! ### Association-list lemmas -/

theorem lookupA_mem {β : Type} {l : List (ℕ × β)} {k : ℕ} {v : β}
    (h : lookupA l k = some v) : (k, v) ∈ l := by
  induction l with
  | nil => simp [lookupA] at h
  | cons kv rest ih =>
      obtain ⟨k', v'⟩ := kv
      by_cases hk : k' = k
      · subst hk
        simp [lookupA] at h
        simp [h]
      · simp [lookupA, hk] at h
        exact List.mem_cons_of_mem _ (ih h)

theorem mem_lookupA {β : Type} {l : List (ℕ × β)} {k : ℕ} {v : β}
    (hnd : (l.map Prod.fst).Nodup) (h : (k, v) ∈ l) : lookupA l k = some v := by
  induction l with
  | nil => simp at h
  | cons kv rest ih =>
      obtain ⟨k', v'⟩ := kv
      simp only [List.map_cons, List.nodup_cons] at hnd
      rcases List.mem_cons.mp h with h1 | h1
      · obtain ⟨rfl, rfl⟩ := Prod.mk.injEq .. ▸ h1
        simp_all [lookupA]
      · have hne : k' ≠ k := by
          rintro rfl
          exact hnd.1 (List.mem_map.mpr ⟨(k', v), h1, rfl⟩)
        simp [lookupA, hne]
        exact ih hnd.2 h1

theorem lookupA_isSome_iff {β : Type} {l : List (ℕ × β)} {k : ℕ} :
    (lookupA l k).isSome ↔ k ∈ l.map Prod.fst := by
  induction l with
  | nil => simp [lookupA]
  | cons kv rest ih =>
      obtain ⟨k', v'⟩ := kv
      by_cases hk : k' = k
      · subst hk
        simp [lookupA]
      · simp [lookupA, hk, ih, Ne.symm hk]

theorem lookupA_append {β : Type} (l1 l2 : List (ℕ × β)) (k : ℕ) :
    lookupA (l1 ++ l2) k =
      match lookupA l1 k with
      | some v => some v
      | none => lookupA l2 k := by
  induction l1 with
  | nil => simp [lookupA]
  | cons kv rest ih =>
      obtain ⟨k', v'⟩ := kv
      by_cases hk : k' = k
      · subst hk
        simp [lookupA]
      · simp [lookupA, hk, ih]

theorem updateA_of_lookupA_none {β : Type} {l : List (ℕ × β)} {k : ℕ} (v : β)
    (h : lookupA l k = none) : updateA l k v = l := by
  induction l with
  | nil => rfl
  | cons kv rest ih =>
      obtain ⟨k', v'⟩ := kv
      by_cases hk : k' = k
      · subst hk
        simp [lookupA] at h
      · simp [lookupA, hk] at h
        simp [updateA, hk, ih h]

theorem lookupA_updateA_ne {β : Type} (l : List (ℕ × β)) (k : ℕ) (v : β) {key : ℕ}
    (h : key ≠ k) : lookupA (updateA l k v) key = lookupA l key := by
  induction l with
  | nil => rfl
  | cons kv rest ih =>
      obtain ⟨k', v'⟩ := kv
      by_cases hk : k' = k
      · subst hk
        simp [updateA, lookupA, Ne.symm h]
      · by_cases hkey : k' = key
        · subst hkey
          simp [updateA, hk, lookupA]
        · simp [updateA, hk, lookupA, hkey, ih]

theorem lookupA_updateA_self {β : Type} {l : List (ℕ × β)} {k : ℕ} (v : β)
    (h : (lookupA l k).isSome) : lookupA (updateA l k v) k = some v := by
  induction l with
  | nil => simp [lookupA] at h
  | cons kv rest ih =>
      obtain ⟨k', v'⟩ := kv
      by_cases hk : k' = k
      · subst hk
        simp [updateA, lookupA]
      · simp [lookupA, hk] at h
        simp [updateA, hk, lookupA, ih h]

theorem updateA_map_fst {β : Type} (l : List (ℕ × β)) (k : ℕ) (v : β) :
    (updateA l k v).map Prod.fst = l.map Prod.fst := by
  induction l with
  | nil => rfl
  | cons kv rest ih =>
      obtain ⟨k', v'⟩ := kv
      by_cases hk : k' = k
      · subst hk
        simp [updateA]
      · simp [updateA, hk, ih]

theorem mem_updateA {β : Type} {l : List (ℕ × β)} {k : ℕ} {v : β} {kv : ℕ × β}
    (h : kv ∈ updateA l k v) : kv ∈ l ∨ kv = (k, v) := by
  induction l with
  | nil => simp [updateA] at h
  | cons kv' rest ih =>
      obtain ⟨k', v'⟩ := kv'
      by_cases hk : k' = k
      · subst hk
        simp [updateA] at h
        rcases h with h | h
        · exact Or.inr h
        · exact Or.inl (List.mem_cons_of_mem _ h)
      · simp [updateA, hk] at h
        rcases h with h | h
        · simp [h]
        · rcases ih h with h1 | h1
          · exact Or.inl (List.mem_cons_of_mem _ h1)
          · exact Or.inr h1

theorem lookupA_insertH {β : Type} (l : List (ℕ × β)) (k : ℕ) (v : β) (key : ℕ) :
    lookupA (insertH l k v) key = if key = k then some v else lookupA l key := by
  unfold insertH
  by_cases hp : (lookupA l k).isSome
  · simp only [hp, if_true]
    by_cases hk : key = k
    · subst hk
      simp [lookupA_updateA_self v hp]
    · simp [hk, lookupA_updateA_ne l k v hk]
  · simp only [hp, Bool.false_eq_true, if_false]
    rw [lookupA_append]
    by_cases hk : key = k
    · subst hk
      rw [Option.not_isSome_iff_eq_none] at hp
      simp [hp, lookupA]
    · cases hl : lookupA l key
      · simp [hk, lookupA, Ne.symm hk]
      · simp [hk]

theorem mem_insertH {β : Type} {l : List (ℕ × β)} {k : ℕ} {v : β} {kv : ℕ × β}
    (h : kv ∈ insertH l k v) : kv ∈ l ∨ kv = (k, v) := by
  unfold insertH at h
  by_cases hp : (lookupA l k).isSome
  · simp only [hp, if_true] at h
    exact mem_updateA h
  · simp only [hp, Bool.false_eq_true, if_false] at h
    rcases List.mem_append.mp h with h1 | h1
    · exact Or.inl h1
    · simp at h1
      exact Or.inr h1

theorem insertH_map_fst_nodup {β : Type} {l : List (ℕ × β)} (k : ℕ) (v : β)
    (h : (l.map Prod.fst).Nodup) : ((insertH l k v).map Prod.fst).Nodup := by
  unfold insertH
  by_cases hp : (lookupA l k).isSome
  · simpa [hp, updateA_map_fst] using h
  · simp only [hp, Bool.false_eq_true, if_false, List.map_append]
    rw [List.nodup_append]
    refine ⟨h, by simp, ?_⟩
    simp only [List.map_cons, List.map_nil]
    intro a ha
    simp only [List.mem_singleton]
    rintro rfl
    rw [← lookupA_isSome_iff] at ha
    exact hp ha

/-! ### `positionOfPoint` and buffer-operation lemmas -/

theorem positionOfPoint_some {l : List (VertexSpherePoint α)} {p : SpherePoint α} {i : ℕ}
    (h : positionOfPoint l p = some i) : ∃ v, l.get? i = some v ∧ v.coordinates = p := by
  induction l generalizing i with
  | nil => simp [positionOfPoint] at h
  | cons v rest ih =>
      by_cases hv : v.has_point p
      · simp [positionOfPoint, hv] at h
        subst h
        refine ⟨v, rfl, ?_⟩
        simpa [VertexSpherePoint.has_point] using hv
      · simp [positionOfPoint, hv] at h
        obtain ⟨j, hj, rfl⟩ := h
        obtain ⟨w, hw, hwp⟩ := ih hj
        exact ⟨w, by simpa using hw, hwp⟩

theorem positionOfPoint_none {l : List (VertexSpherePoint α)} {p : SpherePoint α}
    (h : positionOfPoint l p = none) : ∀ v ∈ l, v.coordinates ≠ p := by
  induction l with
  | nil => simp
  | cons v rest ih =>
      by_cases hv : v.has_point p
      · simp [positionOfPoint, hv] at h
      · simp [positionOfPoint, hv] at h
        intro w hw
        rcases List.mem_cons.mp hw with rfl | hw1
        · simpa [VertexSpherePoint.has_point] using hv
        · exact ih h w hw1

theorem update_celestial (vb : VertexBuffer α) (i j : ℕ) (c : ℚ) :
    (vb.update i j c).celestial_object = vb.celestial_object := by
  unfold VertexBuffer.update
  cases vb.vector.get? i with
  | none => rfl
  | some node =>
      by_cases h : node.graphs.any fun rel => rel.vertex_index == j
      · simp [h]
      · simp [h]

theorem update_length (vb : VertexBuffer α) (i j : ℕ) (c : ℚ) :
    (vb.update i j c).vector.length = vb.vector.length := by
  unfold VertexBuffer.update
  cases vb.vector.get? i with
  | none => rfl
  | some node =>
      by_cases h : node.graphs.any fun rel => rel.vertex_index == j
      · simp [h]
      · simp [h]

theorem update_coordsAt (vb : VertexBuffer α) (i j : ℕ) (c : ℚ) (m : ℕ) :
    coordsAt (vb.update i j c) m = coordsAt vb m := by
  unfold VertexBuffer.update
  cases hg : vb.vector.get? i with
  | none => rfl
  | some node =>
      by_cases h : node.graphs.any fun rel => rel.vertex_index == j
      · simp [h]
      · simp only [h, Bool.false_eq_true, if_false]
        unfold coordsAt
        by_cases hm : m = i
        · subst hm
          rw [List.get?_set_eq_of_lt]
          · rw [hg]
            rfl
          · exact List.get?_eq_some.mp hg |>.1
        · rw [List.get?_set_ne _ _ (Ne.symm hm)]

theorem update_coordsList (vb : VertexBuffer α) (i j : ℕ) (c : ℚ) :
    coordsList (vb.update i j c) = coordsList vb := by
  have hlen : (coordsList (vb.update i j c)).length = (coordsList vb).length := by
    simp [coordsList, update_length]
  apply List.ext_get?
  intro n
  have h1 : (coordsList (vb.update i j c)).get? n = coordsAt (vb.update i j c) n := by
    simp [coordsList, coordsAt, List.get?_map]
  have h2 : (coordsList vb).get? n = coordsAt vb n := by
    simp [coordsList, coordsAt, List.get?_map]
  rw [h1, h2, update_coordsAt]

theorem graphsAt_update_ne (vb : VertexBuffer α) (i j : ℕ) (c : ℚ) {m : ℕ} (h : m ≠ i) :
    graphsAt (vb.update i j c) m = graphsAt vb m := by
  unfold VertexBuffer.update
  cases hg : vb.vector.get? i with
  | none => rfl
  | some node =>
      by_cases hp : node.graphs.any fun rel => rel.vertex_index == j
      · simp [hp]
      · simp only [hp, Bool.false_eq_true, if_false]
        unfold graphsAt
        rw [List.get?_set_ne _ _ (Ne.symm h)]

theorem update_of_present (vb : VertexBuffer α) {i j : ℕ} (c : ℚ) {node : VertexSpherePoint α}
    (hg : vb.vector.get? i = some node)
    (h : ∃ g ∈ node.graphs, g.vertex_index = j) : vb.update i j c = vb := by
  unfold VertexBuffer.update
  rw [hg]
  have : (node.graphs.any fun rel => rel.vertex_index == j) = true := by
    obtain ⟨g, hmem, hj⟩ := h
    exact List.any_eq_true.mpr ⟨g, hmem, by simp [hj]⟩
  simp [this]

theorem graphsAt_update_self (vb : VertexBuffer α) {i : ℕ} (j : ℕ) (c : ℚ)
    {node : VertexSpherePoint α} (hg : vb.vector.get? i = some node)
    (h : ∀ g ∈ node.graphs, g.vertex_index ≠ j) :
    graphsAt (vb.update i j c) i = node.graphs ++ [⟨j, c⟩] := by
  unfold VertexBuffer.update
  rw [hg]
  have hany : (node.graphs.any fun rel => rel.vertex_index == j) = false := by
    rw [List.any_eq_false]
    intro g hmem
    simp [h g hmem]
  simp only [hany, Bool.false_eq_true, if_false]
  unfold graphsAt
  rw [List.get?_set_eq_of_lt]
  · simp
  · exact List.get?_eq_some.mp hg |>.1

/-! ### Validation (`is_connections_vec_correct`) and `VertexBuffer::new` -/

theorem is_connections_vec_correct_iff (connections : List (SphereConnection α)) :
    is_connections_vec_correct connections = true ↔
      connections ≠ [] ∧ ∀ c ∈ connections, c.start ≠ c.finish := by
  unfold is_connections_vec_correct
  by_cases h : connections.length = 0
  · simp [h, List.length_eq_zero.mp h]
  · have : connections ≠ [] := by
      intro hnil
      exact h (by simp [hnil])
    simp [h, this, List.all_eq_true]

/-- C4: graph construction fails with `DataItemIncorrect` exactly when the connection
list is empty or contains a self-loop connection, and otherwise returns `Ok` with the
constructed graph.  On failure the `Except.error` value carries no buffer, so no
partial graph is returned. -/
theorem vertexBuffer_new_spec (κ : SphereConnection α → ℚ)
    (connections : List (SphereConnection α)) (celestial_object : CelestialObject) :
    (VertexBuffer.new κ connections celestial_object =
        Except.error ErrorKind.DataItemIncorrect ↔
      (connections = [] ∨ ∃ c ∈ connections, c.start = c.finish)) ∧
    (VertexBuffer.new κ connections celestial_object =
        Except.ok (buildBuffer κ celestial_object connections) ↔
      ¬(connections = [] ∨ ∃ c ∈ connections, c.start = c.finish)) := by
  unfold VertexBuffer.new
  by_cases h : is_connections_vec_correct connections = true
  · have hv := (is_connections_vec_correct_iff connections).mp h
    have : ¬(connections = [] ∨ ∃ c ∈ connections, c.start = c.finish) := by
      push_neg
      exact hv
    simp [h, this]
  · have hv : connections = [] ∨ ∃ c ∈ connections, c.start = c.finish := by
      by_contra hc
      push_neg at hc
      exact h ((is_connections_vec_correct_iff connections).mpr hc)
    simp [h, hv]

/-! ### `Dijkstra::new` initial state -/

/-- C7 counterexample: the initial search state for start `0`, finish `1` does not
have a single-entry cost table together with an empty predecessor table — `new`
also inserts `finish ↦ f64::MAX` into `costs` and `finish ↦ None` into `parents`. -/
theorem dijkstra_new_init_counterexample :
    ¬ ((Dijkstra.new 0 1).costs = [(0, (0 : CostVal))] ∧
       (Dijkstra.new 0 1).parents = [] ∧
       (Dijkstra.new 0 1).processed = [0]) := by
  intro h
  have := h.2.1
  simp [Dijkstra.new, insertH, lookupA, updateA] at this

/-- C7 (amended): for distinct start and finish indices, the initial search state has
cost table `{start ↦ 0, finish ↦ MAX}`, predecessor table `{finish ↦ None}`, settled
set `[start]`, and cheapest vertex `start`. -/
theorem dijkstra_new_init (s f : ℕ) (h : s ≠ f) :
    Dijkstra.new s f =
      { costs := [(s, (0 : CostVal)), (f, (⊤ : CostVal))]
        parents := [(f, (none : Option ℕ))]
        start_index := s
        finish_index := f
        processed := [s]
        cheapest_vertex_index := s } := by
  unfold Dijkstra.new insertH
  simp [lookupA, Ne.symm h]
  intro hsf
  exact absurd hsf h

/-- Witness for `dijkstra_new_init` at start `0`, finish `1`. -/
theorem dijkstra_new_init_witness :
    Dijkstra.new 0 1 =
      { costs := [(0, (0 : CostVal)), (1, (⊤ : CostVal))]
        parents := [(1, (none : Option ℕ))]
        start_index := 0
        finish_index := 1
        processed := [0]
        cheapest_vertex_index := 0 } :=
  dijkstra_new_init 0 1 (by decide)

/-! ### Haversine cost symmetry -/

/-- C9: the geodesic (haversine) cost is symmetric in its two endpoints, for every
pair of points and every radius. -/
theorem sphereConnection_cost_symm (A B : SpherePoint ℝ) (r : ℝ) :
    SphereConnection.cost ⟨A, B⟩ r = SphereConnection.cost ⟨B, A⟩ r := by
  unfold SphereConnection.cost
  simp only
  have h1 : toRadians (A.lat - B.lat) = -toRadians (B.lat - A.lat) := by
    unfold toRadians
    ring
  have h2 : toRadians (A.lng - B.lng) = -toRadians (B.lng - A.lng) := by
    unfold toRadians
    ring
  rw [h1, h2, neg_div, Real.sin_neg, neg_sq, neg_div, Real.sin_neg, neg_sq,
    mul_comm (Real.cos (toRadians B.lat)) (Real.cos (toRadians A.lat))]

/-! ### Construction invariants -/

theorem coordsAt_lt {vb : VertexBuffer α} {i : ℕ} {p : SpherePoint α}
    (h : coordsAt vb i = some p) : i < vb.vector.length := by
  unfold coordsAt at h
  rcases Option.map_eq_some'.mp h with ⟨v, hv, _⟩
  exact List.get?_eq_some.mp hv |>.1

theorem coordsAt_mem {vb : VertexBuffer α} {i : ℕ} {p : SpherePoint α}
    (h : coordsAt vb i = some p) : p ∈ coordsList vb := by
  unfold coordsAt at h
  rcases Option.map_eq_some'.mp h with ⟨v, hv, hvc⟩
  exact List.mem_map.mpr ⟨v, List.get?_mem hv, hvc⟩

theorem graphsAt_of_le {vb : VertexBuffer α} {i : ℕ} (h : vb.vector.length ≤ i) :
    graphsAt vb i = [] := by
  unfold graphsAt
  rw [List.get?_eq_none.mpr h]
  rfl

theorem graphsAt_trivial_if (vb : VertexBuffer α) (i : ℕ) :
    graphsAt vb i = if i < vb.vector.length then graphsAt vb i else [] := by
  by_cases h : i < vb.vector.length
  · simp [h]
  · simp [h, graphsAt_of_le (Nat.le_of_not_lt h)]

theorem add_coordsAt_old {vb : VertexBuffer α} {i : ℕ} (p : SpherePoint α)
    (h : i < vb.vector.length) : coordsAt (vb.add p).1 i = coordsAt vb i := by
  show ((vb.vector ++ [(⟨p, []⟩ : VertexSpherePoint α)]).get? i).map
      (fun v : VertexSpherePoint α => v.coordinates) =
    (vb.vector.get? i).map (fun v : VertexSpherePoint α => v.coordinates)
  rw [List.get?_append h]

theorem add_coordsAt_new (vb : VertexBuffer α) (p : SpherePoint α) :
    coordsAt (vb.add p).1 vb.vector.length = some p := by
  show ((vb.vector ++ [(⟨p, []⟩ : VertexSpherePoint α)]).get? vb.vector.length).map
      (fun v : VertexSpherePoint α => v.coordinates) = some p
  simp

theorem add_graphsAt_old {vb : VertexBuffer α} {i : ℕ} (p : SpherePoint α)
    (h : i < vb.vector.length) : graphsAt (vb.add p).1 i = graphsAt vb i := by
  show (((vb.vector ++ [(⟨p, []⟩ : VertexSpherePoint α)]).get? i).map
      (fun v : VertexSpherePoint α => v.graphs)).getD [] =
    ((vb.vector.get? i).map (fun v : VertexSpherePoint α => v.graphs)).getD []
  rw [List.get?_append h]

theorem add_length (vb : VertexBuffer α) (p : SpherePoint α) :
    (vb.add p).1.vector.length = vb.vector.length + 1 := by
  show (vb.vector ++ [(⟨p, []⟩ : VertexSpherePoint α)]).length = vb.vector.length + 1
  simp

theorem add_graphsAt (vb : VertexBuffer α) (p : SpherePoint α) (i : ℕ) :
    graphsAt (vb.add p).1 i = if i < vb.vector.length then graphsAt vb i else [] := by
  by_cases h : i < vb.vector.length
  · simp [h, add_graphsAt_old p h]
  · simp only [h, if_false]
    by_cases h2 : i = vb.vector.length
    · subst h2
      show (((vb.vector ++ [(⟨p, []⟩ : VertexSpherePoint α)]).get? vb.vector.length).map
          (fun v : VertexSpherePoint α => v.graphs)).getD [] = []
      simp
    · apply graphsAt_of_le
      rw [add_length]
      omega

theorem add_coordsList (vb : VertexBuffer α) (p : SpherePoint α) :
    coordsList (vb.add p).1 = coordsList vb ++ [p] := by
  show (vb.vector ++ [(⟨p, []⟩ : VertexSpherePoint α)]).map
      (fun v : VertexSpherePoint α => v.coordinates) =
    vb.vector.map (fun v : VertexSpherePoint α => v.coordinates) ++ [p]
  simp

/-- Dissection of `VertexBuffer::append` for a non-self-loop connection: there is an
intermediate buffer `mid` (the original plus freshly added empty-adjacency nodes) and
indices `a`, `b` of the two endpoints such that `append` is the symmetric pair of
`update` calls on `mid`. -/
theorem append_eq (κ : SphereConnection α → ℚ) (vb : VertexBuffer α)
    {c : SphereConnection α} (hne : c.start ≠ c.finish) :
    ∃ (mid : VertexBuffer α) (a b : ℕ),
      vb.append κ c = (mid.update a b (κ c)).update b a (κ c) ∧
      (∀ i, graphsAt mid i = if i < vb.vector.length then graphsAt vb i else []) ∧
      vb.vector.length ≤ mid.vector.length ∧
      coordsAt mid a = some c.start ∧ coordsAt mid b = some c.finish ∧
      (coordsList mid).toFinset =
        insert c.start (insert c.finish (coordsList vb).toFinset) ∧
      ((coordsList vb).Nodup → (coordsList mid).Nodup) := by
  unfold VertexBuffer.append
  cases hs : positionOfPoint vb.vector c.start with
  | some a =>
      obtain ⟨va, hva, hvap⟩ := positionOfPoint_some hs
      have hca : coordsAt vb a = some c.start := by
        unfold coordsAt
        rw [hva]
        simp [hvap]
      have hsmem : c.start ∈ (coordsList vb).toFinset :=
        List.mem_toFinset.mpr (coordsAt_mem hca)
      cases hf : positionOfPoint vb.vector c.finish with
      | some b =>
          obtain ⟨wb, hwb, hwbp⟩ := positionOfPoint_some hf
          have hcb : coordsAt vb b = some c.finish := by
            unfold coordsAt
            rw [hwb]
            simp [hwbp]
          refine ⟨vb, a, b, rfl, fun i => graphsAt_trivial_if vb i, le_refl _, hca, hcb,
            ?_, fun h => h⟩
          have hfmem : c.finish ∈ (coordsList vb).toFinset :=
            List.mem_toFinset.mpr (coordsAt_mem hcb)
          rw [Finset.insert_eq_self.mpr hfmem, Finset.insert_eq_self.mpr hsmem]
      | none =>
          have hfnot := positionOfPoint_none hf
          refine ⟨(vb.add c.finish).1, a, vb.vector.length, rfl,
            fun i => add_graphsAt vb c.finish i, by rw [add_length]; omega, ?_,
            add_coordsAt_new vb c.finish, ?_, ?_⟩
          · rw [add_coordsAt_old c.finish (coordsAt_lt hca)]
            exact hca
          · rw [add_coordsList]
            simp only [List.toFinset_append, List.toFinset_cons, List.toFinset_nil]
            rw [Finset.insert_eq_self.mpr (Finset.mem_insert_of_mem hsmem)]
            ext x
            simp [or_comm]
          · intro hnd
            rw [add_coordsList, List.nodup_append]
            refine ⟨hnd, by simp, ?_⟩
            intro x hx
            simp only [List.mem_singleton]
            rintro rfl
            obtain ⟨v, hv, hvx⟩ := List.mem_map.mp hx
            exact hfnot v hv hvx
  | none =>
      have hsnot := positionOfPoint_none hs
      have hmid1 : coordsAt (vb.add c.start).1 vb.vector.length = some c.start :=
        add_coordsAt_new vb c.start
      cases hf : positionOfPoint vb.vector c.finish with
      | some b =>
          obtain ⟨wb, hwb, hwbp⟩ := positionOfPoint_some hf
          have hcb : coordsAt vb b = some c.finish := by
            unfold coordsAt
            rw [hwb]
            simp [hwbp]
          have hfmem : c.finish ∈ (coordsList vb).toFinset :=
            List.mem_toFinset.mpr (coordsAt_mem hcb)
          refine ⟨(vb.add c.start).1, vb.vector.length, b, rfl,
            fun i => add_graphsAt vb c.start i, by rw [add_length]; omega, hmid1, ?_, ?_, ?_⟩
          · rw [add_coordsAt_old c.start (coordsAt_lt hcb)]
            exact hcb
          · rw [add_coordsList]
            simp only [List.toFinset_append, List.toFinset_cons, List.toFinset_nil]
            rw [Finset.insert_eq_self.mpr hfmem]
            ext x
            simp [or_comm]
          · intro hnd
            rw [add_coordsList, List.nodup_append]
            refine ⟨hnd, by simp, ?_⟩
            intro x hx
            simp only [List.mem_singleton]
            rintro rfl
            obtain ⟨v, hv, hvx⟩ := List.mem_map.mp hx
            exact hsnot v hv hvx
      | none =>
          have hfnot := positionOfPoint_none hf
          refine ⟨((vb.add c.start).1.add c.finish).1, vb.vector.length,
            (vb.add c.start).1.vector.length, rfl, ?_, ?_, ?_,
            add_coordsAt_new (vb.add c.start).1 c.finish, ?_, ?_⟩
          · intro i
            rw [add_graphsAt, add_graphsAt, add_length]
            by_cases h1 : i < vb.vector.length
            · simp [h1, Nat.lt_succ_of_lt h1]
            · by_cases h2 : i < vb.vector.length + 1
              · simp [h1, h2]
              · simp [h1, h2]
          · rw [add_length, add_length]
            omega
          · rw [add_coordsAt_old]
            · exact hmid1
            · rw [add_length]
              omega
          · rw [add_coordsList, add_coordsList]
            simp only [List.toFinset_append, List.toFinset_cons, List.toFinset_nil]
            ext x
            simp
            tauto
          · intro hnd
            rw [add_coordsList, add_coordsList, List.append_assoc, List.nodup_append]
            refine ⟨hnd, ?_, ?_⟩
            · simp only [List.singleton_append, List.nodup_cons, List.mem_singleton]
              exact ⟨hne, by simp⟩
            · intro x hx
              simp only [List.singleton_append, List.mem_cons, List.not_mem_nil, or_false,
                List.mem_singleton]
              obtain ⟨v, hv, hvx⟩ := List.mem_map.mp hx
              rintro (rfl | rfl)
              · exact hsnot v hv hvx
              · exact hfnot v hv hvx

theorem update_get?_ne (vb : VertexBuffer α) (i j : ℕ) (c : ℚ) {m : ℕ} (h : m ≠ i) :
    (vb.update i j c).vector.get? m = vb.vector.get? m := by
  unfold VertexBuffer.update
  cases hg : vb.vector.get? i with
  | none => rfl
  | some node =>
      by_cases hp : node.graphs.any fun rel => rel.vertex_index == j
      · simp [hp]
      · simp only [hp, Bool.false_eq_true, if_false]
        exact List.get?_set_ne _ _ (Ne.symm h)

theorem graphsAt_eq_of_get? {vb : VertexBuffer α} {i : ℕ} {node : VertexSpherePoint α}
    (h : vb.vector.get? i = some node) : graphsAt vb i = node.graphs := by
  unfold graphsAt
  rw [h]
  rfl

theorem WfB_update_pair {vb : VertexBuffer α} {a b : ℕ} (cst : ℚ)
    (hwf : ∀ i, ∀ g ∈ graphsAt vb i, g.vertex_index < vb.vector.length)
    (hsym : ∀ i j c, (⟨j, c⟩ : GraphRelation) ∈ graphsAt vb i →
      (⟨i, c⟩ : GraphRelation) ∈ graphsAt vb j)
    (hns : ∀ i, ∀ g ∈ graphsAt vb i, g.vertex_index ≠ i)
    (ha : a < vb.vector.length) (hb : b < vb.vector.length) (hab : a ≠ b) :
    (∀ i, ∀ g ∈ graphsAt ((vb.update a b cst).update b a cst) i,
        g.vertex_index < vb.vector.length) ∧
    (∀ i j c, (⟨j, c⟩ : GraphRelation) ∈ graphsAt ((vb.update a b cst).update b a cst) i →
        (⟨i, c⟩ : GraphRelation) ∈ graphsAt ((vb.update a b cst).update b a cst) j) ∧
    (∀ i, ∀ g ∈ graphsAt ((vb.update a b cst).update b a cst) i, g.vertex_index ≠ i) := by
  have hna : vb.vector.get? a = some (vb.vector.get ⟨a, ha⟩) := List.get?_eq_get ha
  have hnb : vb.vector.get? b = some (vb.vector.get ⟨b, hb⟩) := List.get?_eq_get hb
  have hga : graphsAt vb a = (vb.vector.get ⟨a, ha⟩).graphs := graphsAt_eq_of_get? hna
  have hgb : graphsAt vb b = (vb.vector.get ⟨b, hb⟩).graphs := graphsAt_eq_of_get? hnb
  by_cases hpres : ∃ g ∈ graphsAt vb a, g.vertex_index = b
  · obtain ⟨g, hgmem, hgb'⟩ := hpres
    have hgm : (⟨b, g.cost⟩ : GraphRelation) ∈ graphsAt vb a := by
      have : g = ⟨b, g.cost⟩ := by
        cases g
        simp_all
      rw [← this]
      exact hgmem
    have hsymm := hsym a b g.cost hgm
    have h1 : vb.update a b cst = vb :=
      update_of_present vb cst hna ⟨g, hga ▸ hgmem, hgb'⟩
    rw [h1]
    have h2 : vb.update b a cst = vb :=
      update_of_present vb cst hnb ⟨⟨a, g.cost⟩, hgb ▸ hsymm, rfl⟩
    rw [h2]
    exact ⟨hwf, hsym, hns⟩
  · push_neg at hpres
    have habs2 : ∀ g ∈ graphsAt vb b, g.vertex_index ≠ a := by
      intro g hg hgeq
      have : g = ⟨a, g.cost⟩ := by
        cases g
        simp_all
      rw [this] at hg
      have := hsym b a g.cost hg
      exact hpres ⟨b, g.cost⟩ this rfl
    have hga1 : graphsAt (vb.update a b cst) a = graphsAt vb a ++ [⟨b, cst⟩] := by
      rw [graphsAt_update_self vb b cst hna]
      · rw [hga]
      · intro g hg
        exact hpres g (hga ▸ hg)
    have hb1 : (vb.update a b cst).vector.get? b = some (vb.vector.get ⟨b, hb⟩) := by
      rw [update_get?_ne vb a b cst (Ne.symm hab)]
      exact hnb
    have hga2 : graphsAt ((vb.update a b cst).update b a cst) b =
        graphsAt vb b ++ [⟨a, cst⟩] := by
      rw [graphsAt_update_self (vb.update a b cst) a cst hb1]
      · rw [hgb]
      · intro g hg
        exact habs2 g (hgb ▸ hg)
    have hshape : ∀ i, graphsAt ((vb.update a b cst).update b a cst) i =
        if i = a then graphsAt vb a ++ [⟨b, cst⟩]
        else if i = b then graphsAt vb b ++ [⟨a, cst⟩]
        else graphsAt vb i := by
      intro i
      by_cases h1 : i = a
      · subst h1
        rw [if_pos rfl, graphsAt_update_ne _ _ _ _ hab, hga1]
      · by_cases h2 : i = b
        · subst h2
          simp only [h1, if_false, if_pos rfl]
          exact hga2
        · simp only [h1, h2, if_false]
          rw [graphsAt_update_ne _ _ _ _ h2, graphsAt_update_ne _ _ _ _ h1]
    refine ⟨?_, ?_, ?_⟩
    · intro i g hg
      rw [hshape] at hg
      split_ifs at hg with h1 h2
      · rcases List.mem_append.mp hg with h3 | h3
        · exact hwf a g h3
        · simp at h3
          subst h3
          exact hb
      · rcases List.mem_append.mp hg with h3 | h3
        · exact hwf b g h3
        · simp at h3
          subst h3
          exact ha
      · exact hwf i g hg
    · intro i j c hm
      rw [hshape] at hm
      have hold : ∀ i0 j0 c0, (⟨j0, c0⟩ : GraphRelation) ∈ graphsAt vb i0 →
          (⟨i0, c0⟩ : GraphRelation) ∈ graphsAt ((vb.update a b cst).update b a cst) j0 := by
        intro i0 j0 c0 h0
        rw [hshape]
        have := hsym i0 j0 c0 h0
        split_ifs with h1 h2
        · subst h1
          exact List.mem_append_left _ this
        · subst h2
          exact List.mem_append_left _ this
        · exact this
      split_ifs at hm with h1 h2
      · subst h1
        rcases List.mem_append.mp hm with h3 | h3
        · exact hold i j c h3
        · simp at h3
          obtain ⟨rfl, rfl⟩ := h3
          rw [hshape]
          simp only [hab, Ne.symm hab, if_false, if_pos rfl]
          refine List.mem_append_right _ ?_
          simp
      · subst h2
        rcases List.mem_append.mp hm with h3 | h3
        · exact hold i j c h3
        · simp at h3
          obtain ⟨rfl, rfl⟩ := h3
          rw [hshape]
          simp only [if_pos rfl]
          refine List.mem_append_right _ ?_
          simp
      · exact hold i j c hm
    · intro i g hg
      rw [hshape] at hg
      split_ifs at hg with h1 h2
      · subst h1
        rcases List.mem_append.mp hg with h3 | h3
        · exact hns i g h3
        · simp at h3
          subst h3
          exact Ne.symm hab
      · subst h2
        rcases List.mem_append.mp hg with h3 | h3
        · exact hns i g h3
        · simp at h3
          subst h3
          exact hab
      · exact hns i g hg

theorem WfB_append (κ : SphereConnection α → ℚ) {vb : VertexBuffer α}
    {c : SphereConnection α} (hw : WfB vb) (hne : c.start ≠ c.finish) :
    WfB (vb.append κ c) ∧
    (coordsList (vb.append κ c)).toFinset =
      insert c.start (insert c.finish (coordsList vb).toFinset) := by
  obtain ⟨mid, a, b, heq, hgm, hlen, hca, hcb, hfin, hnd⟩ := append_eq κ vb hne
  have mwf : ∀ i, ∀ g ∈ graphsAt mid i, g.vertex_index < mid.vector.length := by
    intro i g hg
    rw [hgm] at hg
    split_ifs at hg with h1
    · exact lt_of_lt_of_le (hw.wf_idx i g hg) hlen
    · simp at hg
  have msym : ∀ i j c0, (⟨j, c0⟩ : GraphRelation) ∈ graphsAt mid i →
      (⟨i, c0⟩ : GraphRelation) ∈ graphsAt mid j := by
    intro i j c0 hm
    rw [hgm] at hm
    split_ifs at hm with h1
    · have := hw.symm i j c0 hm
      have hj : j < vb.vector.length := hw.wf_idx i ⟨j, c0⟩ hm
      rw [hgm, if_pos hj]
      exact this
    · simp at hm
  have mns : ∀ i, ∀ g ∈ graphsAt mid i, g.vertex_index ≠ i := by
    intro i g hg
    rw [hgm] at hg
    split_ifs at hg with h1
    · exact hw.noself i g hg
    · simp at hg
  have ha : a < mid.vector.length := coordsAt_lt hca
  have hb : b < mid.vector.length := coordsAt_lt hcb
  have hab : a ≠ b := by
    rintro rfl
    rw [hca] at hcb
    exact hne (Option.some.injEq .. ▸ hcb)
  obtain ⟨rwf, rsym, rns⟩ := WfB_update_pair (κ c) mwf msym mns ha hb hab
  have hrlen : ((mid.update a b (κ c)).update b a (κ c)).vector.length =
      mid.vector.length := by
    rw [update_length, update_length]
  have hrcoords : coordsList ((mid.update a b (κ c)).update b a (κ c)) = coordsList mid := by
    rw [update_coordsList, update_coordsList]
  constructor
  · rw [heq]
    refine ⟨fun i g hg => hrlen ▸ rwf i g hg, hrcoords ▸ hnd hw.coords_nodup, rsym, rns⟩
  · rw [heq, hrcoords, hfin]

theorem endpointsOf_cons (c : SphereConnection α) (rest : List (SphereConnection α)) :
    endpointsOf (c :: rest) = c.start :: c.finish :: endpointsOf rest := rfl

theorem new_ok_of_correct {κ : SphereConnection α → ℚ} {cs : List (SphereConnection α)}
    {co : CelestialObject} (h : is_connections_vec_correct cs = true) :
    VertexBuffer.new κ cs co = .ok (buildBuffer κ co cs) := by
  unfold VertexBuffer.new
  simp [h]

theorem foldl_append_spec (κ : SphereConnection α → ℚ) :
    ∀ (cs : List (SphereConnection α)) (vb : VertexBuffer α),
    WfB vb → (∀ c ∈ cs, c.start ≠ c.finish) →
    WfB (cs.foldl (VertexBuffer.append κ) vb) ∧
    (coordsList (cs.foldl (VertexBuffer.append κ) vb)).toFinset =
      (coordsList vb).toFinset ∪ (endpointsOf cs).toFinset := by
  intro cs
  induction cs with
  | nil =>
      intro vb hw _
      simp [endpointsOf, hw]
  | cons c rest ih =>
      intro vb hw hv
      have hne : c.start ≠ c.finish := hv c (List.mem_cons_self c rest)
      obtain ⟨hw1, hc1⟩ := WfB_append κ hw hne
      have hv1 : ∀ c0 ∈ rest, c0.start ≠ c0.finish :=
        fun c0 hc0 => hv c0 (List.mem_cons_of_mem _ hc0)
      obtain ⟨hw2, hc2⟩ := ih (vb.append κ c) hw1 hv1
      refine ⟨by simpa using hw2, ?_⟩
      simp only [List.foldl_cons] at *
      rw [hc2, hc1, endpointsOf_cons]
      simp only [List.toFinset_cons, Finset.insert_eq]
      simp [Finset.union_assoc, Finset.union_comm, Finset.union_left_comm]

theorem buildBuffer_empty_WfB (co : CelestialObject) : WfB (⟨co, []⟩ : VertexBuffer α) := by
  have hgr : ∀ i, graphsAt (⟨co, []⟩ : VertexBuffer α) i = [] := by
    intro i
    apply graphsAt_of_le
    simp
  refine ⟨?_, ?_, ?_, ?_⟩
  · intro i g hg
    rw [hgr] at hg
    simp at hg
  · simp [coordsList]
  · intro i j c hm
    rw [hgr] at hm
    simp at hm
  · intro i g hg
    rw [hgr] at hg
    simp at hg

theorem buildBuffer_WfB (κ : SphereConnection α → ℚ) (co : CelestialObject)
    {cs : List (SphereConnection α)} (h : ∀ c ∈ cs, c.start ≠ c.finish) :
    WfB (buildBuffer κ co cs) ∧
    (coordsList (buildBuffer κ co cs)).toFinset = (endpointsOf cs).toFinset := by
  obtain ⟨hw, hc⟩ := foldl_append_spec κ cs ⟨co, []⟩ (buildBuffer_empty_WfB co) h
  refine ⟨hw, ?_⟩
  rw [show buildBuffer κ co cs = cs.foldl (VertexBuffer.append κ) ⟨co, []⟩ from rfl, hc]
  simp [coordsList]

theorem new_ok_elim {κ : SphereConnection α → ℚ} {cs : List (SphereConnection α)}
    {co : CelestialObject} {vb : VertexBuffer α}
    (h : VertexBuffer.new κ cs co = .ok vb) :
    vb = buildBuffer κ co cs ∧ cs ≠ [] ∧ ∀ c ∈ cs, c.start ≠ c.finish := by
  unfold VertexBuffer.new at h
  by_cases hv : is_connections_vec_correct cs = true
  · simp [hv] at h
    obtain ⟨h1, h2⟩ := (is_connections_vec_correct_iff cs).mp hv
    exact ⟨h.symm, h1, h2⟩
  · simp [hv] at h

/-- C5: in every successfully constructed graph, the adjacency relation is symmetric:
whenever node `i`'s adjacency contains `(j, c)`, node `j`'s adjacency contains `(i, c)`
with the identical cost `c`. -/
theorem vertexBuffer_adjacency_symm (κ : SphereConnection α → ℚ)
    (cs : List (SphereConnection α)) (co : CelestialObject) (vb : VertexBuffer α)
    (h : VertexBuffer.new κ cs co = .ok vb) (i j : ℕ) (c : ℚ)
    (hm : (⟨j, c⟩ : GraphRelation) ∈ graphsAt vb i) :
    (⟨i, c⟩ : GraphRelation) ∈ graphsAt vb j := by
  obtain ⟨rfl, _, hv⟩ := new_ok_elim h
  exact (buildBuffer_WfB κ co hv).1.symm i j c hm

/-- Witness for `vertexBuffer_adjacency_symm` on a one-connection graph. -/
theorem vertexBuffer_adjacency_symm_witness :
    (⟨0, 2⟩ : GraphRelation) ∈ graphsAt (buildBuffer taxi CelestialObject.EARTH [cZ 0 0 1 1]) 1 :=
  vertexBuffer_adjacency_symm taxi [cZ 0 0 1 1] CelestialObject.EARTH
    (buildBuffer taxi CelestialObject.EARTH [cZ 0 0 1 1]) (new_ok_of_correct (by decide))
    0 1 2 (by
      simp [graphsAt, buildBuffer, VertexBuffer.append, VertexBuffer.update, VertexBuffer.add,
        positionOfPoint, VertexSpherePoint.has_point, taxi, cZ, pZ]
      norm_num)

/-- C6: the number of nodes of every successfully constructed graph equals the number
of distinct coordinates occurring as endpoints across the connection list. -/
theorem vertexBuffer_node_count (κ : SphereConnection α → ℚ)
    (cs : List (SphereConnection α)) (co : CelestialObject) (vb : VertexBuffer α)
    (h : VertexBuffer.new κ cs co = .ok vb) :
    vb.vector.length = (endpointsOf cs).toFinset.card := by
  obtain ⟨rfl, _, hv⟩ := new_ok_elim h
  obtain ⟨hw, hc⟩ := buildBuffer_WfB κ co hv
  have h1 : (coordsList (buildBuffer κ co cs)).length = (buildBuffer κ co cs).vector.length := by
    simp [coordsList]
  rw [← h1, ← List.toFinset_card_of_nodup hw.coords_nodup, hc]

/-- Witness for `vertexBuffer_node_count` on a one-connection graph. -/
theorem vertexBuffer_node_count_witness :
    (buildBuffer taxi CelestialObject.EARTH [cZ 0 0 1 1]).vector.length =
      (endpointsOf [cZ 0 0 1 1]).toFinset.card :=
  vertexBuffer_node_count taxi [cZ 0 0 1 1] CelestialObject.EARTH
    (buildBuffer taxi CelestialObject.EARTH [cZ 0 0 1 1]) (new_ok_of_correct (by decide))

/-- C10: no node of a successfully constructed graph lists its own index in its
adjacency. -/
theorem vertexBuffer_no_self_adjacency (κ : SphereConnection α → ℚ)
    (cs : List (SphereConnection α)) (co : CelestialObject) (vb : VertexBuffer α)
    (h : VertexBuffer.new κ cs co = .ok vb) (i : ℕ) (g : GraphRelation)
    (hg : g ∈ graphsAt vb i) : g.vertex_index ≠ i := by
  obtain ⟨rfl, _, hv⟩ := new_ok_elim h
  exact (buildBuffer_WfB κ co hv).1.noself i g hg

/-- Witness for `vertexBuffer_no_self_adjacency` on a one-connection graph. -/
theorem vertexBuffer_no_self_adjacency_witness :
    (⟨1, 2⟩ : GraphRelation).vertex_index ≠ 0 :=
  vertexBuffer_no_self_adjacency taxi [cZ 0 0 1 1] CelestialObject.EARTH
    (buildBuffer taxi CelestialObject.EARTH [cZ 0 0 1 1]) (new_ok_of_correct (by decide))
    0 ⟨1, 2⟩ (by
      simp [graphsAt, buildBuffer, VertexBuffer.append, VertexBuffer.update, VertexBuffer.add,
        positionOfPoint, VertexSpherePoint.has_point, taxi, cZ, pZ]
      norm_num)

/-! ### Nearest-node lookup (`get_closest_point`) -/

theorem gcpAux_nil (κ : SphereConnection α → ℚ) (point : SpherePoint α) (n : ℕ)
    (acc : ℕ × CostVal) : gcpAux κ point [] n acc = acc := rfl

theorem gcpAux_cons (κ : SphereConnection α → ℚ) (point : SpherePoint α)
    (v : VertexSpherePoint α) (rest : List (VertexSpherePoint α)) (n : ℕ)
    (acc : ℕ × CostVal) :
    gcpAux κ point (v :: rest) n acc =
      if ((κ ⟨point, v.coordinates⟩ : ℚ) : CostVal) < acc.2 then
        gcpAux κ point rest (n + 1) (n, ((κ ⟨point, v.coordinates⟩ : ℚ) : CostVal))
      else gcpAux κ point rest (n + 1) acc := rfl

theorem gcpAux_snd_le (κ : SphereConnection α → ℚ) (point : SpherePoint α) :
    ∀ (l : List (VertexSpherePoint α)) (n : ℕ) (acc : ℕ × CostVal),
    (gcpAux κ point l n acc).2 ≤ acc.2 := by
  intro l
  induction l with
  | nil =>
      intro n acc
      simp [gcpAux_nil]
  | cons v rest ih =>
      intro n acc
      rw [gcpAux_cons]
      by_cases h : ((κ ⟨point, v.coordinates⟩ : ℚ) : CostVal) < acc.2
      · rw [if_pos h]
        exact le_trans (ih (n + 1) _) (le_of_lt h)
      · rw [if_neg h]
        exact ih (n + 1) acc

theorem gcpAux_min (κ : SphereConnection α → ℚ) (point : SpherePoint α) :
    ∀ (l : List (VertexSpherePoint α)) (n : ℕ) (acc : ℕ × CostVal) (j : ℕ)
      (node : VertexSpherePoint α), l.get? j = some node →
    (gcpAux κ point l n acc).2 ≤ ((κ ⟨point, node.coordinates⟩ : ℚ) : CostVal) := by
  intro l
  induction l with
  | nil =>
      intro n acc j node h
      simp at h
  | cons v rest ih =>
      intro n acc j node h
      rw [gcpAux_cons]
      cases j with
      | zero =>
          simp only [List.get?_cons_zero, Option.some.injEq] at h
          subst h
          by_cases hlt : ((κ ⟨point, v.coordinates⟩ : ℚ) : CostVal) < acc.2
          · rw [if_pos hlt]
            exact gcpAux_snd_le κ point rest (n + 1) _
          · rw [if_neg hlt]
            exact le_trans (gcpAux_snd_le κ point rest (n + 1) acc) (not_lt.mp hlt)
      | succ j' =>
          simp only [List.get?_cons_succ] at h
          by_cases hlt : ((κ ⟨point, v.coordinates⟩ : ℚ) : CostVal) < acc.2
          · rw [if_pos hlt]
            exact ih (n + 1) _ j' node h
          · rw [if_neg hlt]
            exact ih (n + 1) acc j' node h

theorem gcpAux_mem (κ : SphereConnection α → ℚ) (point : SpherePoint α) :
    ∀ (l : List (VertexSpherePoint α)) (n : ℕ) (acc : ℕ × CostVal),
    gcpAux κ point l n acc = acc ∨
    ∃ j node, l.get? j = some node ∧
      (gcpAux κ point l n acc).1 = n + j ∧
      (gcpAux κ point l n acc).2 = ((κ ⟨point, node.coordinates⟩ : ℚ) : CostVal) ∧
      ((κ ⟨point, node.coordinates⟩ : ℚ) : CostVal) < acc.2 := by
  intro l
  induction l with
  | nil =>
      intro n acc
      left
      rfl
  | cons v rest ih =>
      intro n acc
      rw [gcpAux_cons]
      by_cases hlt : ((κ ⟨point, v.coordinates⟩ : ℚ) : CostVal) < acc.2
      · rw [if_pos hlt]
        rcases ih (n + 1) (n, ((κ ⟨point, v.coordinates⟩ : ℚ) : CostVal)) with h1 | h1
        · right
          refine ⟨0, v, by simp, ?_, ?_, hlt⟩
          · rw [h1]
            simp
          · rw [h1]
        · obtain ⟨j, node, hget, ha, hb, hc⟩ := h1
          right
          refine ⟨j + 1, node, by simpa using hget, ?_, hb, lt_trans hc hlt⟩
          rw [ha]
          omega
      · rw [if_neg hlt]
        rcases ih (n + 1) acc with h1 | h1
        · left
          exact h1
        · obtain ⟨j, node, hget, ha, hb, hc⟩ := h1
          right
          refine ⟨j + 1, node, by simpa using hget, ?_, hb, hc⟩
          rw [ha]
          omega

theorem gcpAux_first (κ : SphereConnection α → ℚ) (point : SpherePoint α) :
    ∀ (l : List (VertexSpherePoint α)) (n : ℕ) (acc : ℕ × CostVal) (j : ℕ)
      (node : VertexSpherePoint α),
    l.get? j = some node →
    ((κ ⟨point, node.coordinates⟩ : ℚ) : CostVal) = (gcpAux κ point l n acc).2 →
    ((κ ⟨point, node.coordinates⟩ : ℚ) : CostVal) < acc.2 →
    (gcpAux κ point l n acc).1 ≤ n + j := by
  intro l
  induction l with
  | nil =>
      intro n acc j node h
      simp at h
  | cons v rest ih =>
      intro n acc j node hget heq hlt
      rw [gcpAux_cons] at heq ⊢
      by_cases hv : ((κ ⟨point, v.coordinates⟩ : ℚ) : CostVal) < acc.2
      · rw [if_pos hv] at heq ⊢
        cases j with
        | zero =>
            simp only [List.get?_cons_zero, Option.some.injEq] at hget
            subst hget
            rcases gcpAux_mem κ point rest (n + 1)
              (n, ((κ ⟨point, v.coordinates⟩ : ℚ) : CostVal)) with h1 | h1
            · rw [h1]
              simp
            · obtain ⟨j', node', hg', ha, hb, hc⟩ := h1
              have hv2 : ((κ ⟨point, v.coordinates⟩ : ℚ) : CostVal) =
                  ((κ ⟨point, node'.coordinates⟩ : ℚ) : CostVal) := heq.trans hb
              rw [← hv2] at hc
              simp only at hc
              exact absurd hc (lt_irrefl _)
        | succ j' =>
            simp only [List.get?_cons_succ] at hget
            by_cases heqv : ((κ ⟨point, node.coordinates⟩ : ℚ) : CostVal) =
                ((κ ⟨point, v.coordinates⟩ : ℚ) : CostVal)
            · rcases gcpAux_mem κ point rest (n + 1)
                (n, ((κ ⟨point, v.coordinates⟩ : ℚ) : CostVal)) with h1 | h1
              · rw [h1]
                simp
              · obtain ⟨j'', node'', hg'', ha, hb, hc⟩ := h1
                have hv2 : ((κ ⟨point, v.coordinates⟩ : ℚ) : CostVal) =
                    ((κ ⟨point, node''.coordinates⟩ : ℚ) : CostVal) :=
                  (heqv.symm.trans heq).trans hb
                rw [← hv2] at hc
                simp only at hc
                exact absurd hc (lt_irrefl _)
            · have hle : (gcpAux κ point rest (n + 1)
                  (n, ((κ ⟨point, v.coordinates⟩ : ℚ) : CostVal))).2 ≤
                  ((κ ⟨point, v.coordinates⟩ : ℚ) : CostVal) :=
                gcpAux_snd_le κ point rest (n + 1) _
              rw [← heq] at hle
              have hstrict := lt_of_le_of_ne hle heqv
              have := ih (n + 1) (n, ((κ ⟨point, v.coordinates⟩ : ℚ) : CostVal)) j' node
                hget heq hstrict
              omega
      · rw [if_neg hv] at heq ⊢
        cases j with
        | zero =>
            simp only [List.get?_cons_zero, Option.some.injEq] at hget
            subst hget
            exact absurd hlt hv
        | succ j' =>
            simp only [List.get?_cons_succ] at hget
            have := ih (n + 1) acc j' node hget heq hlt
            omega

theorem get_closest_point_argmin (κ : SphereConnection α → ℚ) (point : SpherePoint α)
    (vb : VertexBuffer α) (h : vb.vector ≠ []) :
    ∃ node, vb.vector.get? (get_closest_point κ point vb) = some node ∧
      (∀ k nk, vb.vector.get? k = some nk →
        κ ⟨point, node.coordinates⟩ ≤ κ ⟨point, nk.coordinates⟩) ∧
      (∀ k nk, vb.vector.get? k = some nk →
        κ ⟨point, nk.coordinates⟩ = κ ⟨point, node.coordinates⟩ →
        get_closest_point κ point vb ≤ k) := by
  obtain ⟨v0, rest0, hl⟩ := List.exists_cons_of_ne_nil h
  have hget0 : vb.vector.get? 0 = some v0 := by
    rw [hl]
    rfl
  unfold get_closest_point
  rcases gcpAux_mem κ point vb.vector 0 (0, (⊤ : CostVal)) with h1 | h1
  · exfalso
    have hmin := gcpAux_min κ point vb.vector 0 (0, (⊤ : CostVal)) 0 v0 hget0
    rw [h1] at hmin
    simp only at hmin
    exact WithTop.coe_ne_top (top_le_iff.mp hmin)
  · obtain ⟨j, node, hget, ha, hb, _⟩ := h1
    simp only [Nat.zero_add] at ha
    refine ⟨node, by rw [ha]; exact hget, ?_, ?_⟩
    · intro k nk hk
      have hmin := gcpAux_min κ point vb.vector 0 (0, (⊤ : CostVal)) k nk hk
      rw [hb] at hmin
      exact WithTop.coe_le_coe.mp hmin
    · intro k nk hk heq
      have hfir := gcpAux_first κ point vb.vector 0 (0, (⊤ : CostVal)) k nk hk
        (by rw [heq, ← hb]) (by simp [WithTop.coe_lt_top])
      simpa using hfir

/-- C8: for every query point and every graph with at least one node,
`get_closest_point` returns the index of a node whose cost to the query is minimal
over all nodes, and ties resolve to the first-encountered (lowest-index) minimum. -/
theorem get_closest_point_spec (κ : SphereConnection α → ℚ) (point : SpherePoint α)
    (vb : VertexBuffer α) (h : vb.vector ≠ []) :
    ∃ node, vb.vector.get? (get_closest_point κ point vb) = some node ∧
      (∀ k nk, vb.vector.get? k = some nk →
        κ ⟨point, node.coordinates⟩ ≤ κ ⟨point, nk.coordinates⟩) ∧
      (∀ k nk, vb.vector.get? k = some nk →
        κ ⟨point, nk.coordinates⟩ = κ ⟨point, node.coordinates⟩ →
        get_closest_point κ point vb ≤ k) :=
  get_closest_point_argmin κ point vb h

/-- Witness for `get_closest_point_spec` on a two-node buffer. -/
theorem get_closest_point_spec_witness :
    ∃ node, (⟨CelestialObject.EARTH, [⟨pZ 0 0, []⟩, ⟨pZ 1 1, []⟩]⟩ :
        VertexBuffer ℤ).vector.get?
        (get_closest_point taxi (pZ 5 5)
          ⟨CelestialObject.EARTH, [⟨pZ 0 0, []⟩, ⟨pZ 1 1, []⟩]⟩) = some node ∧
      (∀ k nk, (⟨CelestialObject.EARTH, [⟨pZ 0 0, []⟩, ⟨pZ 1 1, []⟩]⟩ :
          VertexBuffer ℤ).vector.get? k = some nk →
        taxi ⟨pZ 5 5, node.coordinates⟩ ≤ taxi ⟨pZ 5 5, nk.coordinates⟩) ∧
      (∀ k nk, (⟨CelestialObject.EARTH, [⟨pZ 0 0, []⟩, ⟨pZ 1 1, []⟩]⟩ :
          VertexBuffer ℤ).vector.get? k = some nk →
        taxi ⟨pZ 5 5, nk.coordinates⟩ = taxi ⟨pZ 5 5, node.coordinates⟩ →
        get_closest_point taxi (pZ 5 5)
          ⟨CelestialObject.EARTH, [⟨pZ 0 0, []⟩, ⟨pZ 1 1, []⟩]⟩ ≤ k) :=
  get_closest_point_spec taxi (pZ 5 5)
    ⟨CelestialObject.EARTH, [⟨pZ 0 0, []⟩, ⟨pZ 1 1, []⟩]⟩ (by simp)

/-! ### The search loop does not terminate on disconnected graphs -/

theorem searchGo_of_fix {vb : VertexBuffer α} {s : Dijkstra}
    (hstep : searchStep vb s = s) : ∀ n, searchGo vb n s = s := by
  intro n
  induction n with
  | zero => rfl
  | succ n ih =>
      unfold searchGo
      by_cases h : s.finish_index ∈ s.processed
      · simp [h]
      · simp [h, hstep, ih]

theorem twoComp_buffer_eq (κ : SphereConnection ℤ → ℚ) (co : CelestialObject) :
    buildBuffer κ co twoCompConnections =
      ⟨co, [⟨pZ 0 0, [⟨1, κ (cZ 0 0 1 1)⟩]⟩, ⟨pZ 1 1, [⟨0, κ (cZ 0 0 1 1)⟩]⟩,
            ⟨pZ 5 5, [⟨3, κ (cZ 5 5 6 6)⟩]⟩, ⟨pZ 6 6, [⟨2, κ (cZ 5 5 6 6)⟩]⟩]⟩ := by
  simp [buildBuffer, twoCompConnections, VertexBuffer.append, VertexBuffer.add,
    VertexBuffer.update, positionOfPoint, VertexSpherePoint.has_point, cZ, pZ]

theorem twoComp_step1 (κ : SphereConnection ℤ → ℚ) (co : CelestialObject) :
    searchStep (buildBuffer κ co twoCompConnections) (Dijkstra.new 0 2) =
      { costs := [(0, (0 : CostVal)), (2, (⊤ : CostVal)), (1, ((κ (cZ 0 0 1 1) : ℚ) : CostVal))]
        parents := [(2, (none : Option ℕ)), (1, some 0)]
        start_index := 0
        finish_index := 2
        processed := [0, 1]
        cheapest_vertex_index := 1 } := by
  rw [twoComp_buffer_eq]
  simp [searchStep, relaxAll, relaxOne, selectMin, selectMinAux, Dijkstra.new, insertH,
    lookupA, updateA, pZ, cZ]

theorem twoComp_step2 (κ : SphereConnection ℤ → ℚ) (co : CelestialObject) :
    searchStep (buildBuffer κ co twoCompConnections)
      { costs := [(0, (0 : CostVal)), (2, (⊤ : CostVal)), (1, ((κ (cZ 0 0 1 1) : ℚ) : CostVal))]
        parents := [(2, (none : Option ℕ)), (1, some 0)]
        start_index := 0
        finish_index := 2
        processed := [0, 1]
        cheapest_vertex_index := 1 } =
      { costs := [(0, (0 : CostVal)), (2, (⊤ : CostVal)), (1, ((κ (cZ 0 0 1 1) : ℚ) : CostVal))]
        parents := [(2, (none : Option ℕ)), (1, some 0)]
        start_index := 0
        finish_index := 2
        processed := [0, 1]
        cheapest_vertex_index := 1 } := by
  rw [twoComp_buffer_eq]
  simp [searchStep, relaxAll, relaxOne, selectMin, selectMinAux, insertH,
    lookupA, updateA, pZ, cZ]

theorem twoComp_search_stuck (κ : SphereConnection ℤ → ℚ) (co : CelestialObject) :
    ∀ fuel, (2 : ℕ) ∉
      (searchGo (buildBuffer κ co twoCompConnections) fuel (Dijkstra.new 0 2)).processed := by
  intro fuel
  cases fuel with
  | zero =>
      show (2 : ℕ) ∉ (Dijkstra.new 0 2).processed
      simp [Dijkstra.new, insertH, lookupA, updateA]
  | succ n =>
      unfold searchGo
      have hmem : (Dijkstra.new 0 2).finish_index ∈ (Dijkstra.new 0 2).processed ↔ False := by
        simp [Dijkstra.new, insertH, lookupA, updateA]
      rw [if_neg (by simp [hmem]), twoComp_step1 κ co,
        searchGo_of_fix (twoComp_step2 κ co) n]
      simp

/-- C2 (code bug): on a graph whose two connections form two disconnected components,
the search from node `0` towards node `2` never settles the finish node, for any
number of loop iterations: once component `{0, 1}` is exhausted the minimum-cost scan
returns `None` (the strict `min_cost > v` test rejects the remaining `f64::MAX` entry
of the finish node), the loop body changes nothing, and the `while` condition stays
true — the Rust loop runs forever instead of terminating. -/
theorem dijkstra_search_nonterminating (κ : SphereConnection ℤ → ℚ)
    (co : CelestialObject) (fuel : ℕ) :
    (2 : ℕ) ∉
      (searchGo (buildBuffer κ co twoCompConnections) fuel (Dijkstra.new 0 2)).processed :=
  twoComp_search_stuck κ co fuel

theorem relaxOne_fields (s : Dijkstra) (g : GraphRelation) :
    (relaxOne s g).start_index = s.start_index ∧
    (relaxOne s g).finish_index = s.finish_index ∧
    (relaxOne s g).processed = s.processed ∧
    (relaxOne s g).cheapest_vertex_index = s.cheapest_vertex_index := by
  unfold relaxOne
  refine ⟨?_, ?_, ?_, ?_⟩ <;>
    (split
     · rfl
     · split
       · dsimp only
         split
         · rfl
         · rfl
       · rfl)

theorem relaxFold_fields (l : List GraphRelation) :
    ∀ s : Dijkstra,
    (l.foldl relaxOne s).start_index = s.start_index ∧
    (l.foldl relaxOne s).finish_index = s.finish_index ∧
    (l.foldl relaxOne s).processed = s.processed ∧
    (l.foldl relaxOne s).cheapest_vertex_index = s.cheapest_vertex_index := by
  induction l with
  | nil => intro s; exact ⟨rfl, rfl, rfl, rfl⟩
  | cons g rest ih =>
      intro s
      simp only [List.foldl_cons]
      obtain ⟨h1, h2, h3, h4⟩ := ih (relaxOne s g)
      obtain ⟨g1, g2, g3, g4⟩ := relaxOne_fields s g
      exact ⟨h1.trans g1, h2.trans g2, h3.trans g3, h4.trans g4⟩

theorem relaxAll_fields (vb : VertexBuffer α) (s : Dijkstra) :
    (relaxAll vb s).start_index = s.start_index ∧
    (relaxAll vb s).finish_index = s.finish_index ∧
    (relaxAll vb s).processed = s.processed ∧
    (relaxAll vb s).cheapest_vertex_index = s.cheapest_vertex_index := by
  unfold relaxAll
  cases vb.vector.get? s.cheapest_vertex_index with
  | none => exact ⟨rfl, rfl, rfl, rfl⟩
  | some node => exact relaxFold_fields node.graphs s

theorem searchStep_start (vb : VertexBuffer α) (s : Dijkstra) :
    (searchStep vb s).start_index = s.start_index := by
  unfold searchStep
  dsimp only
  cases h : selectMin (relaxAll vb s).costs (relaxAll vb s).processed with
  | some x => simp [h, (relaxAll_fields vb s).1]
  | none => simp [h, (relaxAll_fields vb s).1]

theorem searchStep_finish (vb : VertexBuffer α) (s : Dijkstra) :
    (searchStep vb s).finish_index = s.finish_index := by
  unfold searchStep
  dsimp only
  cases h : selectMin (relaxAll vb s).costs (relaxAll vb s).processed with
  | some x => simp [h, (relaxAll_fields vb s).2.1]
  | none => simp [h, (relaxAll_fields vb s).2.1]

theorem searchGo_start (vb : VertexBuffer α) :
    ∀ (n : ℕ) (s : Dijkstra), (searchGo vb n s).start_index = s.start_index := by
  intro n
  induction n with
  | zero => intro s; rfl
  | succ n ih =>
      intro s
      unfold searchGo
      by_cases h : s.finish_index ∈ s.processed
      · simp [h]
      · simp only [h, if_false]
        exact (ih (searchStep vb s)).trans (searchStep_start vb s)

theorem searchGo_finish (vb : VertexBuffer α) :
    ∀ (n : ℕ) (s : Dijkstra), (searchGo vb n s).finish_index = s.finish_index := by
  intro n
  induction n with
  | zero => intro s; rfl
  | succ n ih =>
      intro s
      unfold searchGo
      by_cases h : s.finish_index ∈ s.processed
      · simp [h]
      · simp only [h, if_false]
        exact (ih (searchStep vb s)).trans (searchStep_finish vb s)

theorem get_closest_point_eq_of_strict (κ : SphereConnection α → ℚ) (point : SpherePoint α)
    (vb : VertexBuffer α) {m : ℕ} {u : VertexSpherePoint α}
    (hm : vb.vector.get? m = some u)
    (hstrict : ∀ k nk, vb.vector.get? k = some nk → k ≠ m →
      κ ⟨point, u.coordinates⟩ < κ ⟨point, nk.coordinates⟩) :
    get_closest_point κ point vb = m := by
  have hne : vb.vector ≠ [] := by
    intro h0
    rw [h0] at hm
    simp at hm
  obtain ⟨node, hget, hmin, _⟩ := get_closest_point_argmin κ point vb hne
  by_contra hne2
  have hle := hmin m u hm
  have hlt := hstrict _ node hget hne2
  exact absurd (lt_of_le_of_lt hle hlt) (lt_irrefl _)

/-- C3 (code bug): on the two-component graph, with query points resolving to the
disconnected nodes `0` and `2`, `find_shortest_path` passes all its degeneracy guards
(distinct points, non-empty graph, distinct nearest indices) and delegates to the
solver — which never terminates (`twoComp_search_stuck`), so the call never returns a
result at all, contradicting "in every other case it returns Some".  The hypotheses
state that each query point is strictly closest to its own node, as is the case for
the geodesic cost. -/
theorem find_shortest_path_diverges (κ : SphereConnection ℤ → ℚ) (co : CelestialObject)
    (h1 : κ ⟨pZ 0 0, pZ 0 0⟩ < κ ⟨pZ 0 0, pZ 1 1⟩)
    (h2 : κ ⟨pZ 0 0, pZ 0 0⟩ < κ ⟨pZ 0 0, pZ 5 5⟩)
    (h3 : κ ⟨pZ 0 0, pZ 0 0⟩ < κ ⟨pZ 0 0, pZ 6 6⟩)
    (h4 : κ ⟨pZ 5 5, pZ 5 5⟩ < κ ⟨pZ 5 5, pZ 0 0⟩)
    (h5 : κ ⟨pZ 5 5, pZ 5 5⟩ < κ ⟨pZ 5 5, pZ 1 1⟩)
    (h6 : κ ⟨pZ 5 5, pZ 5 5⟩ < κ ⟨pZ 5 5, pZ 6 6⟩)
    (fuel : ℕ) :
    find_shortest_path κ (pZ 0 0) (pZ 5 5) (buildBuffer κ co twoCompConnections) fuel =
      none := by
  have hg1 : get_closest_point κ (pZ 0 0) (buildBuffer κ co twoCompConnections) = 0 := by
    apply get_closest_point_eq_of_strict κ (pZ 0 0) _
      (m := 0) (u := ⟨pZ 0 0, [⟨1, κ (cZ 0 0 1 1)⟩]⟩)
    · rw [twoComp_buffer_eq]
      rfl
    · intro k nk hget hkne
      rw [twoComp_buffer_eq] at hget
      have hk : k < 4 := List.get?_eq_some.mp hget |>.1
      interval_cases k
      · exact absurd rfl hkne
      · simp at hget
        rw [← hget]
        exact h1
      · simp at hget
        rw [← hget]
        exact h2
      · simp at hget
        rw [← hget]
        exact h3
  have hg2 : get_closest_point κ (pZ 5 5) (buildBuffer κ co twoCompConnections) = 2 := by
    apply get_closest_point_eq_of_strict κ (pZ 5 5) _
      (m := 2) (u := ⟨pZ 5 5, [⟨3, κ (cZ 5 5 6 6)⟩]⟩)
    · rw [twoComp_buffer_eq]
      rfl
    · intro k nk hget hkne
      rw [twoComp_buffer_eq] at hget
      have hk : k < 4 := List.get?_eq_some.mp hget |>.1
      interval_cases k
      · simp at hget
        rw [← hget]
        exact h4
      · simp at hget
        rw [← hget]
        exact h5
      · exact absurd rfl hkne
      · simp at hget
        rw [← hget]
        exact h6
  have hlen : (buildBuffer κ co twoCompConnections).vector.length = 4 := by
    rw [twoComp_buffer_eq]
    rfl
  have hfin : (searchGo (buildBuffer κ co twoCompConnections) fuel
      (Dijkstra.new 0 2)).finish_index = 2 := by
    rw [searchGo_finish]
    rfl
  have hstuck := twoComp_search_stuck κ co fuel
  unfold find_shortest_path
  rw [if_neg]
  · dsimp only
    rw [hg1, hg2, if_neg (by decide)]
    unfold Dijkstra.calculate_path
    dsimp only
    rw [if_neg]
    · simp
    · rw [hfin]
      exact hstuck
  · rw [hlen]
    simp [pZ]

/-- Witness for `find_shortest_path_diverges`: taxicab cost, fuel `9`. -/
theorem find_shortest_path_diverges_witness :
    find_shortest_path taxi (pZ 0 0) (pZ 5 5)
      (buildBuffer taxi CelestialObject.URANUS twoCompConnections) 9 = none :=
  find_shortest_path_diverges taxi CelestialObject.URANUS
    (by norm_num [taxi, pZ]) (by norm_num [taxi, pZ]) (by norm_num [taxi, pZ])
    (by norm_num [taxi, pZ]) (by norm_num [taxi, pZ]) (by norm_num [taxi, pZ]) 9

/-! ### Search-loop invariants -/

theorem relaxOne_costs_lookup_ne (s : Dijkstra) (g : GraphRelation) {k : ℕ}
    (h : k ≠ g.vertex_index) :
    lookupA (relaxOne s g).costs k = lookupA s.costs k := by
  unfold relaxOne
  split
  · rfl
  · dsimp only
    split
    · split
      · dsimp only
        exact lookupA_updateA_ne _ _ _ h
      · rfl
    · dsimp only
      rw [lookupA_insertH]
      simp [h]

theorem relaxOne_parents_lookup_ne (s : Dijkstra) (g : GraphRelation) {k : ℕ}
    (h : k ≠ g.vertex_index) :
    lookupA (relaxOne s g).parents k = lookupA s.parents k := by
  unfold relaxOne
  split
  · rfl
  · dsimp only
    split
    · split
      · dsimp only
        exact lookupA_updateA_ne _ _ _ h
      · rfl
    · dsimp only
      rw [lookupA_insertH]
      simp [h]

theorem relaxOne_of_mem (s : Dijkstra) (g : GraphRelation)
    (h : g.vertex_index ∈ s.processed) : relaxOne s g = s := by
  unfold relaxOne
  rw [if_pos h]

theorem relaxOne_master (vb : VertexBuffer α) (s : Dijkstra) (g : GraphRelation)
    (hsm : s.start_index ∈ s.processed)
    (hcm : s.cheapest_vertex_index ∈ s.processed)
    (hglt : g.vertex_index < vb.vector.length)
    (hgnbr : g.vertex_index ∈ nbrIdxList vb s.cheapest_vertex_index)
    (b1 : (s.costs.map Prod.fst).Nodup)
    (b2 : ∀ kv ∈ s.costs, kv.1 < vb.vector.length)
    (b3 : ∀ k ∈ s.processed, ∃ c, lookupA s.costs k = some c ∧ c < ⊤)
    (b4 : ∀ k p, lookupA s.parents k = some (some p) → p ∈ s.processed ∧ k ∈ nbrIdxList vb p)
    (b5 : ∀ k p, lookupA s.parents k = some (some p) → k ∈ s.processed →
      s.processed.indexOf p < s.processed.indexOf k)
    (b6 : ∀ k, k ∈ s.processed → k ≠ s.start_index →
      ∃ p, lookupA s.parents k = some (some p))
    (b7 : ∀ k c, lookupA s.costs k = some c → c < ⊤ → k ≠ s.start_index →
      ∃ p, lookupA s.parents k = some (some p))
    (b8 : ∀ k c, lookupA s.costs k = some c →
      k = s.start_index ∨ (lookupA s.parents k).isSome) :
    ((relaxOne s g).costs.map Prod.fst).Nodup ∧
    (∀ kv ∈ (relaxOne s g).costs, kv.1 < vb.vector.length) ∧
    (∀ k ∈ s.processed, ∃ c, lookupA (relaxOne s g).costs k = some c ∧ c < ⊤) ∧
    (∀ k p, lookupA (relaxOne s g).parents k = some (some p) →
      p ∈ s.processed ∧ k ∈ nbrIdxList vb p) ∧
    (∀ k p, lookupA (relaxOne s g).parents k = some (some p) → k ∈ s.processed →
      s.processed.indexOf p < s.processed.indexOf k) ∧
    (∀ k, k ∈ s.processed → k ≠ s.start_index →
      ∃ p, lookupA (relaxOne s g).parents k = some (some p)) ∧
    (∀ k c, lookupA (relaxOne s g).costs k = some c → c < ⊤ → k ≠ s.start_index →
      ∃ p, lookupA (relaxOne s g).parents k = some (some p)) ∧
    (∀ k c, lookupA (relaxOne s g).costs k = some c →
      k = s.start_index ∨ (lookupA (relaxOne s g).parents k).isSome) ∧
    (∀ k v, lookupA s.costs k = some v → v < ⊤ →
      ∃ v', lookupA (relaxOne s g).costs k = some v' ∧ v' < ⊤) ∧
    (g.vertex_index ∈ s.processed ∨
      ∃ v, lookupA (relaxOne s g).costs g.vertex_index = some v ∧ v < ⊤) := by
  obtain ⟨c0, hc0, hc0lt⟩ := b3 _ hcm
  have hpc : (lookupA s.costs s.cheapest_vertex_index).getD ⊤ = c0 := by
    rw [hc0]
    rfl
  have hchild : (lookupA s.costs s.cheapest_vertex_index).getD ⊤ + (g.cost : CostVal) < ⊤ := by
    rw [hpc]
    exact WithTop.add_lt_top.mpr ⟨hc0lt, WithTop.coe_lt_top g.cost⟩
  by_cases hmem : g.vertex_index ∈ s.processed
  · rw [relaxOne_of_mem s g hmem]
    exact ⟨b1, b2, b3, b4, b5, b6, b7, b8, fun k v h1 h2 => ⟨v, h1, h2⟩, Or.inl hmem⟩
  · have hgs : g.vertex_index ≠ s.start_index := fun h0 => hmem (h0 ▸ hsm)
    cases hl : lookupA s.costs g.vertex_index with
    | some existing =>
        have hpk : (lookupA s.parents g.vertex_index).isSome := by
          rcases b8 _ _ hl with h | h
          · exact absurd h hgs
          · exact h
        by_cases hgt : existing >
            (lookupA s.costs s.cheapest_vertex_index).getD ⊤ + (g.cost : CostVal)
        · have heq : relaxOne s g =
              { s with
                costs := updateA s.costs g.vertex_index
                  ((lookupA s.costs s.cheapest_vertex_index).getD ⊤ + (g.cost : CostVal))
                parents := updateA s.parents g.vertex_index
                  (some s.cheapest_vertex_index) } := by
            unfold relaxOne
            rw [if_neg hmem]
            dsimp only
            rw [hl]
            dsimp only
            rw [if_pos hgt]
          rw [heq]
          dsimp only
          have hcself : lookupA (updateA s.costs g.vertex_index
              ((lookupA s.costs s.cheapest_vertex_index).getD ⊤ + (g.cost : CostVal)))
              g.vertex_index =
              some ((lookupA s.costs s.cheapest_vertex_index).getD ⊤ + (g.cost : CostVal)) :=
            lookupA_updateA_self _ (by rw [hl]; rfl)
          have hpself : lookupA (updateA s.parents g.vertex_index
              (some s.cheapest_vertex_index)) g.vertex_index =
              some (some s.cheapest_vertex_index) :=
            lookupA_updateA_self _ hpk
          refine ⟨?_, ?_, ?_, ?_, ?_, ?_, ?_, ?_, ?_, ?_⟩
          · rw [updateA_map_fst]
            exact b1
          · intro kv hkv
            rcases mem_updateA hkv with h | h
            · exact b2 kv h
            · rw [h]
              exact hglt
          · intro k hk
            rw [lookupA_updateA_ne _ _ _ (by rintro rfl; exact hmem hk)]
            exact b3 k hk
          · intro k p hp
            by_cases hkg : k = g.vertex_index
            · subst hkg
              rw [hpself] at hp
              obtain rfl : p = s.cheapest_vertex_index := by
                simpa using hp.symm
              exact ⟨hcm, hgnbr⟩
            · rw [lookupA_updateA_ne _ _ _ hkg] at hp
              exact b4 k p hp
          · intro k p hp hk
            by_cases hkg : k = g.vertex_index
            · subst hkg
              exact absurd hk hmem
            · rw [lookupA_updateA_ne _ _ _ hkg] at hp
              exact b5 k p hp hk
          · intro k hk hks
            rw [lookupA_updateA_ne _ _ _ (by rintro rfl; exact hmem hk)]
            exact b6 k hk hks
          · intro k c hc hclt hks
            by_cases hkg : k = g.vertex_index
            · subst hkg
              exact ⟨s.cheapest_vertex_index, hpself⟩
            · rw [lookupA_updateA_ne _ _ _ hkg] at hc
              obtain ⟨p, hp⟩ := b7 k c hc hclt hks
              exact ⟨p, by rw [lookupA_updateA_ne _ _ _ hkg]; exact hp⟩
          · intro k c hc
            by_cases hkg : k = g.vertex_index
            · subst hkg
              right
              rw [hpself]
              rfl
            · rw [lookupA_updateA_ne _ _ _ hkg] at hc
              rcases b8 k c hc with h | h
              · exact Or.inl h
              · right
                rw [lookupA_updateA_ne _ _ _ hkg]
                exact h
          · intro k v hv hvlt
            by_cases hkg : k = g.vertex_index
            · subst hkg
              exact ⟨_, hcself, hchild⟩
            · exact ⟨v, by rw [lookupA_updateA_ne _ _ _ hkg]; exact hv, hvlt⟩
          · right
            exact ⟨_, hcself, hchild⟩
        · have heq : relaxOne s g = s := by
            unfold relaxOne
            rw [if_neg hmem]
            dsimp only
            rw [hl]
            dsimp only
            rw [if_neg hgt]
          rw [heq]
          refine ⟨b1, b2, b3, b4, b5, b6, b7, b8, fun k v h1 h2 => ⟨v, h1, h2⟩, ?_⟩
          right
          exact ⟨existing, hl, lt_of_le_of_lt (not_lt.mp hgt) hchild⟩
    | none =>
        have heq : relaxOne s g =
            { s with
              costs := insertH s.costs g.vertex_index
                ((lookupA s.costs s.cheapest_vertex_index).getD ⊤ + (g.cost : CostVal))
              parents := insertH s.parents g.vertex_index
                (some s.cheapest_vertex_index) } := by
          unfold relaxOne
          rw [if_neg hmem]
          dsimp only
          rw [hl]
        rw [heq]
        dsimp only
        have hcself : lookupA (insertH s.costs g.vertex_index
            ((lookupA s.costs s.cheapest_vertex_index).getD ⊤ + (g.cost : CostVal)))
            g.vertex_index =
            some ((lookupA s.costs s.cheapest_vertex_index).getD ⊤ + (g.cost : CostVal)) := by
          rw [lookupA_insertH]
          simp
        have hpself : lookupA (insertH s.parents g.vertex_index
            (some s.cheapest_vertex_index)) g.vertex_index =
            some (some s.cheapest_vertex_index) := by
          rw [lookupA_insertH]
          simp
        have hcne : ∀ k, k ≠ g.vertex_index →
            lookupA (insertH s.costs g.vertex_index
              ((lookupA s.costs s.cheapest_vertex_index).getD ⊤ + (g.cost : CostVal))) k =
            lookupA s.costs k := by
          intro k hk
          rw [lookupA_insertH]
          simp [hk]
        have hpne : ∀ k, k ≠ g.vertex_index →
            lookupA (insertH s.parents g.vertex_index (some s.cheapest_vertex_index)) k =
            lookupA s.parents k := by
          intro k hk
          rw [lookupA_insertH]
          simp [hk]
        refine ⟨?_, ?_, ?_, ?_, ?_, ?_, ?_, ?_, ?_, ?_⟩
        · exact insertH_map_fst_nodup _ _ b1
        · intro kv hkv
          rcases mem_insertH hkv with h | h
          · exact b2 kv h
          · rw [h]
            exact hglt
        · intro k hk
          rw [hcne k (by rintro rfl; exact hmem hk)]
          exact b3 k hk
        · intro k p hp
          by_cases hkg : k = g.vertex_index
          · subst hkg
            rw [hpself] at hp
            obtain rfl : p = s.cheapest_vertex_index := by
              simpa using hp.symm
            exact ⟨hcm, hgnbr⟩
          · rw [hpne k hkg] at hp
            exact b4 k p hp
        · intro k p hp hk
          by_cases hkg : k = g.vertex_index
          · subst hkg
            exact absurd hk hmem
          · rw [hpne k hkg] at hp
            exact b5 k p hp hk
        · intro k hk hks
          rw [hpne k (by rintro rfl; exact hmem hk)]
          exact b6 k hk hks
        · intro k c hc hclt hks
          by_cases hkg : k = g.vertex_index
          · subst hkg
            exact ⟨s.cheapest_vertex_index, hpself⟩
          · rw [hcne k hkg] at hc
            obtain ⟨p, hp⟩ := b7 k c hc hclt hks
            exact ⟨p, by rw [hpne k hkg]; exact hp⟩
        · intro k c hc
          by_cases hkg : k = g.vertex_index
          · subst hkg
            right
            rw [hpself]
            rfl
          · rw [hcne k hkg] at hc
            rcases b8 k c hc with h | h
            · exact Or.inl h
            · right
              rw [hpne k hkg]
              exact h
        · intro k v hv hvlt
          by_cases hkg : k = g.vertex_index
          · subst hkg
            rw [hl] at hv
            exact absurd hv (by simp)
          · exact ⟨v, by rw [hcne k hkg]; exact hv, hvlt⟩
        · right
          exact ⟨_, hcself, hchild⟩

theorem relaxFold_master (vb : VertexBuffer α) :
    ∀ (L : List GraphRelation) (s : Dijkstra),
    s.start_index ∈ s.processed →
    s.cheapest_vertex_index ∈ s.processed →
    (∀ g ∈ L, g.vertex_index < vb.vector.length) →
    (∀ g ∈ L, g.vertex_index ∈ nbrIdxList vb s.cheapest_vertex_index) →
    SBase vb s →
    SBase vb (L.foldl relaxOne s) ∧
    (∀ k v, lookupA s.costs k = some v → v < ⊤ →
      ∃ v', lookupA (L.foldl relaxOne s).costs k = some v' ∧ v' < ⊤) ∧
    (∀ g ∈ L, g.vertex_index ∈ s.processed ∨
      ∃ v, lookupA (L.foldl relaxOne s).costs g.vertex_index = some v ∧ v < ⊤) := by
  intro L
  induction L with
  | nil =>
      intro s _ _ _ _ hb
      exact ⟨hb, fun k v hv hlt => ⟨v, hv, hlt⟩, fun g hg => absurd hg (List.not_mem_nil g)⟩
  | cons g rest ih =>
      intro s hsm hcm hlt hnbr hb
      obtain ⟨b1, b2, b3, b4, b5, b6, b7, b8⟩ := hb
      obtain ⟨c1, c2, c3, c4, c5, c6, c7, c8, c9, c10⟩ :=
        relaxOne_master vb s g hsm hcm (hlt g (List.mem_cons_self g rest))
          (hnbr g (List.mem_cons_self g rest)) b1 b2 b3 b4 b5 b6 b7 b8
      obtain ⟨f1, f2, f3, f4⟩ := relaxOne_fields s g
      have hb' : SBase vb (relaxOne s g) := by
        refine ⟨c1, c2, ?_, ?_, ?_, ?_, ?_, ?_⟩
        · rw [f3]
          exact c3
        · rw [f3]
          exact c4
        · rw [f3]
          exact c5
        · rw [f3, f1]
          exact c6
        · rw [f1]
          exact c7
        · rw [f1]
          exact c8
      have hrec := ih (relaxOne s g) (by rw [f1, f3]; exact hsm) (by rw [f4, f3]; exact hcm)
        (fun g0 hg0 => hlt g0 (List.mem_cons_of_mem _ hg0))
        (by rw [f4]; exact fun g0 hg0 => hnbr g0 (List.mem_cons_of_mem _ hg0)) hb'
      obtain ⟨r1, r2, r3⟩ := hrec
      refine ⟨by simpa using r1, ?_, ?_⟩
      · intro k v hv hvlt
        obtain ⟨v', hv', hvlt'⟩ := c9 k v hv hvlt
        obtain ⟨v'', hv'', hvlt''⟩ := r2 k v' hv' hvlt'
        exact ⟨v'', by simpa using hv'', hvlt''⟩
      · intro g0 hg0
        rcases List.mem_cons.mp hg0 with rfl | hg0'
        · rcases c10 with h | h
          · exact Or.inl h
          · obtain ⟨v, hvv, hvl⟩ := h
            obtain ⟨v', hv', hvl'⟩ := r2 g0.vertex_index v hvv hvl
            right
            exact ⟨v', by simpa using hv', hvl'⟩
        · rcases r3 g0 hg0' with h | h
          · rw [f3] at h
            exact Or.inl h
          · right
            simpa using h

theorem selectMinAux_keep_some :
    ∀ (l : List (ℕ × CostVal)) (processed : List ℕ) (acc : CostVal × Option ℕ) (k : ℕ),
    acc.2 = some k → ∃ k', (selectMinAux l processed acc).2 = some k' := by
  intro l
  induction l with
  | nil =>
      intro processed acc k h
      exact ⟨k, h⟩
  | cons kv rest ih =>
      intro processed acc k h
      obtain ⟨k0, v0⟩ := kv
      unfold selectMinAux
      by_cases h1 : k0 ∈ processed
      · rw [if_pos h1]
        exact ih processed acc k h
      · rw [if_neg h1]
        by_cases h2 : acc.1 > v0
        · rw [if_pos h2]
          exact ih processed (v0, some k0) k0 rfl
        · rw [if_neg h2]
          exact ih processed acc k h

theorem selectMinAux_some_spec :
    ∀ (l : List (ℕ × CostVal)) (processed : List ℕ) (acc : CostVal × Option ℕ) (x : ℕ),
    (selectMinAux l processed acc).2 = some x →
    acc.2 = some x ∨ (x ∉ processed ∧ ∃ v, (x, v) ∈ l ∧ v < ⊤) := by
  intro l
  induction l with
  | nil =>
      intro processed acc x h
      exact Or.inl h
  | cons kv rest ih =>
      intro processed acc x h
      obtain ⟨k0, v0⟩ := kv
      unfold selectMinAux at h
      by_cases h1 : k0 ∈ processed
      · rw [if_pos h1] at h
        rcases ih processed acc x h with h2 | h2
        · exact Or.inl h2
        · exact Or.inr ⟨h2.1, h2.2.imp fun v hv => ⟨List.mem_cons_of_mem _ hv.1, hv.2⟩⟩
      · rw [if_neg h1] at h
        by_cases h2 : acc.1 > v0
        · rw [if_pos h2] at h
          rcases ih processed (v0, some k0) x h with h3 | h3
          · simp only at h3
            obtain rfl : k0 = x := by simpa using h3
            refine Or.inr ⟨h1, v0, List.mem_cons_self _ _, ?_⟩
            exact lt_of_lt_of_le h2 le_top
          · exact Or.inr ⟨h3.1, h3.2.imp fun v hv => ⟨List.mem_cons_of_mem _ hv.1, hv.2⟩⟩
        · rw [if_neg h2] at h
          rcases ih processed acc x h with h3 | h3
          · exact Or.inl h3
          · exact Or.inr ⟨h3.1, h3.2.imp fun v hv => ⟨List.mem_cons_of_mem _ hv.1, hv.2⟩⟩

theorem selectMinAux_none_spec :
    ∀ (l : List (ℕ × CostVal)) (processed : List ℕ) (acc : CostVal × Option ℕ),
    (acc.2 = none → acc.1 = ⊤) →
    (selectMinAux l processed acc).2 = none →
    ∀ kv ∈ l, kv.1 ∈ processed ∨ ¬(kv.2 < ⊤) := by
  intro l
  induction l with
  | nil =>
      intro processed acc _ _ kv hkv
      simp at hkv
  | cons kv0 rest ih =>
      intro processed acc hacc h kv hkv
      obtain ⟨k0, v0⟩ := kv0
      unfold selectMinAux at h
      by_cases h1 : k0 ∈ processed
      · rw [if_pos h1] at h
        rcases List.mem_cons.mp hkv with rfl | hkv'
        · exact Or.inl h1
        · exact ih processed acc hacc h kv hkv'
      · rw [if_neg h1] at h
        by_cases h2 : acc.1 > v0
        · rw [if_pos h2] at h
          obtain ⟨k', hk'⟩ := selectMinAux_keep_some rest processed (v0, some k0) k0 rfl
          rw [h] at hk'
          exact absurd hk' (by simp)
        · rw [if_neg h2] at h
          cases hacc2 : acc.2 with
          | some k1 =>
              obtain ⟨k', hk'⟩ := selectMinAux_keep_some rest processed acc k1 hacc2
              rw [h] at hk'
              exact absurd hk' (by simp)
          | none =>
              have htop : acc.1 = ⊤ := hacc hacc2
              rcases List.mem_cons.mp hkv with rfl | hkv'
              · right
                rw [htop] at h2
                intro hlt
                exact h2 hlt
              · exact ih processed acc hacc h kv hkv'

theorem selectMin_eq_some {costs : List (ℕ × CostVal)} {processed : List ℕ} {x : ℕ}
    (h : selectMin costs processed = some x) :
    x ∉ processed ∧ ∃ v, (x, v) ∈ costs ∧ v < ⊤ := by
  unfold selectMin at h
  rcases selectMinAux_some_spec costs processed (⊤, none) x h with h1 | h1
  · exact absurd h1 (by simp)
  · exact h1

theorem selectMin_isSome_of_exists {costs : List (ℕ × CostVal)} {processed : List ℕ}
    (h : ∃ kv ∈ costs, kv.1 ∉ processed ∧ kv.2 < ⊤) :
    ∃ x, selectMin costs processed = some x := by
  cases hs : selectMin costs processed with
  | some x => exact ⟨x, rfl⟩
  | none =>
      exfalso
      obtain ⟨kv, hkv, hmem, hlt⟩ := h
      unfold selectMin at hs
      rcases selectMinAux_none_spec costs processed (⊤, none) (fun _ => rfl) hs kv hkv with
        h1 | h1
      · exact hmem h1
      · exact h1 hlt

theorem relaxAll_eq_of_get? {vb : VertexBuffer α} {s : Dijkstra}
    {node : VertexSpherePoint α} (h : vb.vector.get? s.cheapest_vertex_index = some node) :
    relaxAll vb s = node.graphs.foldl relaxOne s := by
  unfold relaxAll
  rw [h]

theorem relaxAll_eq_self_of_none {vb : VertexBuffer α} {s : Dijkstra}
    (h : vb.vector.get? s.cheapest_vertex_index = none) : relaxAll vb s = s := by
  unfold relaxAll
  rw [h]

theorem relaxAll_master (vb : VertexBuffer α) (hwf : WfB vb) (s : Dijkstra)
    (hsm : s.start_index ∈ s.processed) (hcm : s.cheapest_vertex_index ∈ s.processed)
    (hb : SBase vb s) :
    SBase vb (relaxAll vb s) ∧
    (∀ k v, lookupA s.costs k = some v → v < ⊤ →
      ∃ v', lookupA (relaxAll vb s).costs k = some v' ∧ v' < ⊤) ∧
    (∀ g ∈ graphsAt vb s.cheapest_vertex_index, g.vertex_index ∈ s.processed ∨
      ∃ v, lookupA (relaxAll vb s).costs g.vertex_index = some v ∧ v < ⊤) := by
  cases hg : vb.vector.get? s.cheapest_vertex_index with
  | none =>
      rw [relaxAll_eq_self_of_none hg]
      refine ⟨hb, fun k v hv hl => ⟨v, hv, hl⟩, ?_⟩
      intro g hgm
      have hnil : graphsAt vb s.cheapest_vertex_index = [] := by
        unfold graphsAt
        rw [hg]
        rfl
      rw [hnil] at hgm
      exact absurd hgm (List.not_mem_nil g)
  | some node =>
      rw [relaxAll_eq_of_get? hg]
      have hgr : graphsAt vb s.cheapest_vertex_index = node.graphs := graphsAt_eq_of_get? hg
      have h1 : ∀ g ∈ node.graphs, g.vertex_index < vb.vector.length := by
        intro g hgm
        exact hwf.wf_idx s.cheapest_vertex_index g (hgr ▸ hgm)
      have h2 : ∀ g ∈ node.graphs, g.vertex_index ∈ nbrIdxList vb s.cheapest_vertex_index := by
        intro g hgm
        unfold nbrIdxList
        rw [hgr]
        exact List.mem_map.mpr ⟨g, hgm, rfl⟩
      have hres := relaxFold_master vb node.graphs s hsm hcm h1 h2 hb
      rw [hgr]
      exact hres

theorem indexOf_append_sing_mem {l : List ℕ} {a : ℕ} (h : a ∈ l) (x : ℕ) :
    (l ++ [x]).indexOf a = l.indexOf a := by
  induction l with
  | nil => simp at h
  | cons b rest ih =>
      simp only [List.cons_append, List.indexOf, List.findIdx_cons]
      cases hba : (b == a) with
      | true => simp
      | false =>
          simp only [cond_false]
          have h' : a ∈ rest := by
            rcases List.mem_cons.mp h with rfl | h'
            · simp at hba
            · exact h'
          have := ih h'
          simp only [List.indexOf] at this
          rw [this]

theorem indexOf_append_sing_self {l : List ℕ} {a : ℕ} (h : a ∉ l) :
    (l ++ [a]).indexOf a = l.length := by
  induction l with
  | nil => simp [List.indexOf, List.findIdx_cons]
  | cons b rest ih =>
      have hba : (b == a) = false := by
        simp only [beq_eq_false_iff_ne]
        intro hba
        exact h (hba ▸ List.mem_cons_self b rest)
      simp only [List.cons_append, List.indexOf, List.findIdx_cons, hba, cond_false]
      have h' : a ∉ rest := fun h' => h (List.mem_cons_of_mem _ h')
      have := ih h'
      simp only [List.indexOf] at this
      rw [this]
      simp

theorem searchStep_cases (vb : VertexBuffer α) (s : Dijkstra) :
    (searchStep vb s = relaxAll vb s ∧
      selectMin (relaxAll vb s).costs (relaxAll vb s).processed = none) ∨
    (∃ x, selectMin (relaxAll vb s).costs (relaxAll vb s).processed = some x ∧
      searchStep vb s = { relaxAll vb s with
        cheapest_vertex_index := x, processed := (relaxAll vb s).processed ++ [x] }) := by
  unfold searchStep
  dsimp only
  cases h : selectMin (relaxAll vb s).costs (relaxAll vb s).processed with
  | none => exact Or.inl ⟨rfl, rfl⟩
  | some x => exact Or.inr ⟨x, rfl, rfl⟩

theorem searchStep_SInv (vb : VertexBuffer α) (hwf : WfB vb) {s : Dijkstra}
    (hinv : SInv vb s) : SInv vb (searchStep vb s) := by
  have hSB : SBase vb s :=
    ⟨hinv.costs_keys_nodup, hinv.keys_lt, hinv.proc_cost, hinv.parent_good,
      hinv.parent_order, hinv.settled_parent, hinv.cost_parent, hinv.parents_key⟩
  obtain ⟨hb', hpres, hcov⟩ := relaxAll_master vb hwf s hinv.start_mem hinv.cheapest_mem hSB
  obtain ⟨f1, f2, f3, f4⟩ := relaxAll_fields vb s
  obtain ⟨hb1, hb2, hb3, hb4, hb5, hb6, hb7, hb8⟩ := hb'
  have hcovAll : ∀ k ∈ s.processed, ∀ g ∈ graphsAt vb k, g.vertex_index ∈ s.processed ∨
      ∃ v, lookupA (relaxAll vb s).costs g.vertex_index = some v ∧ v < ⊤ := by
    intro k hk g hg
    by_cases hkc : k = s.cheapest_vertex_index
    · subst hkc
      exact hcov g hg
    · rcases hinv.covered k hk hkc g hg with h | ⟨c, hc, hclt⟩
      · exact Or.inl h
      · exact Or.inr (hpres _ c hc hclt)
  rcases searchStep_cases vb s with ⟨heq, _⟩ | ⟨x, hsome, heq⟩
  · rw [heq]
    refine ⟨?_, ?_, ?_, hb1, hb2, ?_, ?_, hb3, ?_, hb4, hb5, hb6, hb7, hb8⟩
    · rw [f3]
      exact hinv.proc_nodup
    · rw [f1, f3]
      exact hinv.start_mem
    · rw [f4, f3]
      exact hinv.cheapest_mem
    · rw [f3]
      exact hinv.proc_lt
    · rw [f2]
      exact hinv.finish_lt
    · intro k hk hkc g hg
      rw [f3] at hk ⊢
      rw [f4] at hkc
      exact hcovAll k hk g hg
  · rw [heq]
    obtain ⟨hxnm, v, hxv, hxlt⟩ := selectMin_eq_some hsome
    rw [f3] at hxnm
    have hxs : x ≠ s.start_index := by
      rintro rfl
      exact hxnm hinv.start_mem
    have hlookx : lookupA (relaxAll vb s).costs x = some v := mem_lookupA hb1 hxv
    refine ⟨?_, ?_, ?_, hb1, hb2, ?_, ?_, ?_, ?_, ?_, ?_, ?_, hb7, hb8⟩
    · show ((relaxAll vb s).processed ++ [x]).Nodup
      rw [f3, List.nodup_append]
      refine ⟨hinv.proc_nodup, List.nodup_singleton x, ?_⟩
      intro a ha
      simp only [List.mem_singleton]
      rintro rfl
      exact hxnm ha
    · show (relaxAll vb s).start_index ∈ (relaxAll vb s).processed ++ [x]
      rw [f1, f3]
      exact List.mem_append_left _ hinv.start_mem
    · show x ∈ (relaxAll vb s).processed ++ [x]
      exact List.mem_append_right _ (List.mem_singleton_self x)
    · intro k hk
      rcases List.mem_append.mp hk with hk1 | hk1
      · rw [f3] at hk1
        exact hinv.proc_lt k hk1
      · obtain rfl : k = x := List.mem_singleton.mp hk1
        exact hb2 (k, v) hxv
    · show (relaxAll vb s).finish_index < vb.vector.length
      rw [f2]
      exact hinv.finish_lt
    · intro k hk
      rcases List.mem_append.mp hk with hk1 | hk1
      · exact hb3 k hk1
      · obtain rfl : k = x := List.mem_singleton.mp hk1
        exact ⟨v, hlookx, hxlt⟩
    · intro k hk hkx g hg
      have hkx2 : k ≠ x := hkx
      rcases List.mem_append.mp hk with hk1 | hk1
      · rw [f3] at hk1
        rcases hcovAll k hk1 g hg with h | ⟨c, hc, hclt⟩
        · left
          rw [f3]
          exact List.mem_append_left _ h
        · right
          exact ⟨c, hc, hclt⟩
      · exact absurd (List.mem_singleton.mp hk1) hkx2
    · intro k p hp
      obtain ⟨hp1, hp2⟩ := hb4 k p hp
      exact ⟨List.mem_append_left _ hp1, hp2⟩
    · intro k p hp hk
      obtain ⟨hp1, hp2⟩ := hb4 k p hp
      rcases List.mem_append.mp hk with hk1 | hk1
      · rw [indexOf_append_sing_mem hp1, indexOf_append_sing_mem hk1]
        exact hb5 k p hp hk1
      · obtain rfl : k = x := List.mem_singleton.mp hk1
        rw [f3] at hp1 ⊢
        rw [indexOf_append_sing_mem hp1, indexOf_append_sing_self hxnm]
        exact List.indexOf_lt_length.mpr hp1
    · intro k hk hks
      rcases List.mem_append.mp hk with hk1 | hk1
      · exact hb6 k hk1 hks
      · obtain rfl : k = x := List.mem_singleton.mp hk1
        exact hb7 k v hlookx hxlt (by rw [f1]; exact hxs)

theorem searchStep_progress (vb : VertexBuffer α) {s : Dijkstra}
    (hfront : ∃ k v, lookupA (relaxAll vb s).costs k = some v ∧ v < ⊤ ∧
      k ∉ (relaxAll vb s).processed) :
    (searchStep vb s).processed.length = s.processed.length + 1 := by
  rcases searchStep_cases vb s with ⟨heq, hnone⟩ | ⟨x, hsome, heq⟩
  · exfalso
    obtain ⟨k, v, hkv, hvlt, hkm⟩ := hfront
    obtain ⟨x, hx⟩ := selectMin_isSome_of_exists ⟨(k, v), lookupA_mem hkv, hkm, hvlt⟩
    rw [hnone] at hx
    exact absurd hx (by simp)
  · rw [heq]
    show ((relaxAll vb s).processed ++ [x]).length = s.processed.length + 1
    rw [List.length_append, (relaxAll_fields vb s).2.2.1]
    rfl

theorem relaxAll_covers (vb : VertexBuffer α) (hwf : WfB vb) {s : Dijkstra}
    (hinv : SInv vb s) :
    ∀ k ∈ s.processed, ∀ g ∈ graphsAt vb k, g.vertex_index ∈ s.processed ∨
      ∃ v, lookupA (relaxAll vb s).costs g.vertex_index = some v ∧ v < ⊤ := by
  have hSB : SBase vb s :=
    ⟨hinv.costs_keys_nodup, hinv.keys_lt, hinv.proc_cost, hinv.parent_good,
      hinv.parent_order, hinv.settled_parent, hinv.cost_parent, hinv.parents_key⟩
  obtain ⟨hb', hpres, hcov⟩ := relaxAll_master vb hwf s hinv.start_mem hinv.cheapest_mem hSB
  intro k hk g hg
  by_cases hkc : k = s.cheapest_vertex_index
  · subst hkc
    exact hcov g hg
  · rcases hinv.covered k hk hkc g hg with h | ⟨c, hc, hclt⟩
    · exact Or.inl h
    · exact Or.inr (hpres _ c hc hclt)

theorem frontier_exists (vb : VertexBuffer α) (hwf : WfB vb) {s : Dijkstra}
    (hinv : SInv vb s) (hfin : s.finish_index ∉ s.processed) :
    ∀ l : List ℕ, AdjChain vb l →
    (∃ h t, l = h :: t ∧ h ∈ s.processed) →
    l.getLast? = some s.finish_index →
    ∃ k v, lookupA (relaxAll vb s).costs k = some v ∧ v < ⊤ ∧ k ∉ s.processed := by
  intro l
  induction l with
  | nil =>
      intro _ hex _
      obtain ⟨h, t, habs, _⟩ := hex
      simp at habs
  | cons h1 rest ih =>
      intro hchain hex hlast
      obtain ⟨h', t', heq2, hmem'⟩ := hex
      have hmem : h1 ∈ s.processed := by
        have h11 : h1 = h' := (List.cons.injEq .. ▸ heq2).1
        rw [h11]
        exact hmem'
      cases rest with
      | nil =>
          simp at hlast
          exact absurd (hlast ▸ hmem) hfin
      | cons h2 rest2 =>
          have hchain2 : AdjChain vb (h2 :: rest2) := (List.chain'_cons.mp hchain).2
          have hnbr : h2 ∈ nbrIdxList vb h1 := (List.chain'_cons.mp hchain).1
          by_cases hmem2 : h2 ∈ s.processed
          · exact ih hchain2 ⟨h2, rest2, rfl, hmem2⟩ (by simpa using hlast)
          · obtain ⟨g, hgm, hgv⟩ := List.mem_map.mp hnbr
            rcases relaxAll_covers vb hwf hinv h1 hmem g hgm with h | ⟨v, hv, hvlt⟩
            · rw [hgv] at h
              exact absurd h hmem2
            · rw [hgv] at hv
              exact ⟨h2, v, hv, hvlt, hmem2⟩

theorem mem_of_nodup_bound {l : List ℕ} {n : ℕ} (hnd : l.Nodup) (hlt : ∀ x ∈ l, x < n)
    (hlen : n ≤ l.length) {k : ℕ} (hk : k < n) : k ∈ l := by
  have h1 : l.toFinset ⊆ Finset.range n := fun x hx =>
    Finset.mem_range.mpr (hlt x (List.mem_toFinset.mp hx))
  have h2 : (Finset.range n).card ≤ l.toFinset.card := by
    rw [List.toFinset_card_of_nodup hnd, Finset.card_range]
    exact hlen
  have h3 : l.toFinset = Finset.range n := Finset.eq_of_subset_of_card_le h1 h2
  rw [← List.mem_toFinset, h3]
  exact Finset.mem_range.mpr hk

theorem searchGo_SInv (vb : VertexBuffer α) (hwf : WfB vb) :
    ∀ (fuel : ℕ) {s : Dijkstra}, SInv vb s → SInv vb (searchGo vb fuel s) := by
  intro fuel
  induction fuel with
  | zero => intro s hinv; exact hinv
  | succ fuel ih =>
      intro s hinv
      unfold searchGo
      by_cases h : s.finish_index ∈ s.processed
      · rw [if_pos h]
        exact hinv
      · rw [if_neg h]
        exact ih (searchStep_SInv vb hwf hinv)

theorem searchGo_reaches (vb : VertexBuffer α) (hwf : WfB vb) (l : List ℕ)
    (hchain : AdjChain vb l) :
    ∀ (fuel : ℕ) (s : Dijkstra), SInv vb s →
    l.head? = some s.start_index → l.getLast? = some s.finish_index →
    vb.vector.length ≤ s.processed.length + fuel →
    s.finish_index ∈ (searchGo vb fuel s).processed := by
  intro fuel
  induction fuel with
  | zero =>
      intro s hinv _ _ hbound
      show s.finish_index ∈ s.processed
      exact mem_of_nodup_bound hinv.proc_nodup hinv.proc_lt (by simpa using hbound)
        hinv.finish_lt
  | succ fuel ih =>
      intro s hinv hhead hlast hbound
      unfold searchGo
      by_cases hfin : s.finish_index ∈ s.processed
      · rw [if_pos hfin]
        exact hfin
      · rw [if_neg hfin]
        have hex : ∃ h t, l = h :: t ∧ h ∈ s.processed := by
          cases l with
          | nil => simp at hhead
          | cons a t =>
              have : a = s.start_index := by simpa using hhead
              exact ⟨a, t, rfl, this ▸ hinv.start_mem⟩
        obtain ⟨k, v, hkv, hvlt, hkm⟩ := frontier_exists vb hwf hinv hfin l hchain hex hlast
        have hprog := searchStep_progress vb
          ⟨k, v, hkv, hvlt, by rw [(relaxAll_fields vb s).2.2.1]; exact hkm⟩
        have hres := ih (searchStep vb s) (searchStep_SInv vb hwf hinv)
          (by rw [searchStep_start]; exact hhead)
          (by rw [searchStep_finish]; exact hlast)
          (by rw [hprog]; omega)
        rw [searchStep_finish] at hres
        exact hres

theorem walkParents_of_chain (vb : VertexBuffer α) (s : Dijkstra) :
    ∀ (steps : List (ℕ × SpherePoint α)) (actual : ℕ) (fuel : ℕ),
    ParentChain vb s actual steps → steps.length < fuel →
    ∀ (ce : SpherePoint α) (acc : List (SphereConnection α)),
    walkParents vb s fuel actual ce acc = some (acc ++ walkEmit steps ce) := by
  intro steps
  induction steps with
  | nil =>
      intro actual fuel hchain hfuel ce acc
      obtain ⟨f, rfl⟩ : ∃ f, fuel = f + 1 := ⟨fuel - 1, by omega⟩
      have hstart : actual = s.start_index := hchain
      unfold walkParents
      rw [if_pos hstart]
      simp [walkEmit]
  | cons pc rest ih =>
      intro actual fuel hchain hfuel ce acc
      obtain ⟨p, c⟩ := pc
      obtain ⟨hne, hp, hc, hrest⟩ := hchain
      obtain ⟨f, rfl⟩ : ∃ f, fuel = f + 1 := ⟨fuel - 1, by omega⟩
      obtain ⟨node, hnode, hncoords⟩ := Option.map_eq_some'.mp hc
      unfold walkParents
      rw [if_neg hne]
      simp only [hp, hnode]
      have := ih p f hrest (by simpa using hfuel) node.coordinates
        (acc ++ [⟨node.coordinates, ce⟩])
      rw [this, hncoords]
      simp [walkEmit]

theorem new_state_fields (s f : ℕ) (h : s ≠ f) :
    Dijkstra.new s f =
      { costs := [(s, (0 : CostVal)), (f, (⊤ : CostVal))]
        parents := [(f, (none : Option ℕ))]
        start_index := s
        finish_index := f
        processed := [s]
        cheapest_vertex_index := s } := by
  unfold Dijkstra.new insertH
  simp [lookupA, Ne.symm h]
  intro hsf
  exact absurd hsf h

theorem SInv_init (vb : VertexBuffer α) {s f : ℕ} (hs : s < vb.vector.length)
    (hf : f < vb.vector.length) (hsf : s ≠ f) : SInv vb (Dijkstra.new s f) := by
  rw [new_state_fields s f hsf]
  have hlook : ∀ k, lookupA [(s, (0 : CostVal)), (f, (⊤ : CostVal))] k =
      if s = k then some 0 else if f = k then some ⊤ else none := by
    intro k
    simp [lookupA]
  have hplook : ∀ k, lookupA [(f, (none : Option ℕ))] k =
      if f = k then some none else none := by
    intro k
    simp [lookupA]
  refine ⟨?_, ?_, ?_, ?_, ?_, ?_, ?_, ?_, ?_, ?_, ?_, ?_, ?_, ?_⟩
  · simp
  · simp
  · simp
  · simp [hsf]
  · intro kv hkv
    rcases List.mem_cons.mp hkv with rfl | hkv
    · exact hs
    · rcases List.mem_cons.mp hkv with rfl | hkv
      · exact hf
      · simp at hkv
  · intro k hk
    obtain rfl : k = s := List.mem_singleton.mp hk
    exact hs
  · exact hf
  · intro k hk
    obtain rfl : k = s := List.mem_singleton.mp hk
    refine ⟨0, ?_, ?_⟩
    · rw [hlook]
      simp
    · exact WithTop.coe_lt_top (0 : ℚ)
  · intro k hk hkc
    obtain rfl : k = s := List.mem_singleton.mp hk
    exact absurd rfl hkc
  · intro k p hp
    rw [hplook] at hp
    by_cases h1 : f = k
    · rw [if_pos h1] at hp
      simp at hp
    · rw [if_neg h1] at hp
      simp at hp
  · intro k p hp _
    rw [hplook] at hp
    by_cases h1 : f = k
    · rw [if_pos h1] at hp
      simp at hp
    · rw [if_neg h1] at hp
      simp at hp
  · intro k hk hks
    obtain rfl : k = s := List.mem_singleton.mp hk
    exact absurd rfl hks
  · intro k c hc hclt hks
    rw [hlook] at hc
    by_cases h1 : s = k
    · exact absurd h1.symm hks
    · rw [if_neg h1] at hc
      by_cases h2 : f = k
      · rw [if_pos h2] at hc
        obtain rfl : (⊤ : CostVal) = c := by simpa using hc
        exact absurd hclt (lt_irrefl _)
      · rw [if_neg h2] at hc
        simp at hc
  · intro k c hc
    rw [hlook] at hc
    by_cases h1 : s = k
    · exact Or.inl h1.symm
    · rw [if_neg h1] at hc
      by_cases h2 : f = k
      · right
        rw [hplook]
        simp [h2]
      · rw [if_neg h2] at hc
        simp at hc

theorem gridGraph_struct (κ : SphereConnection ℤ → ℚ) (co : CelestialObject) :
    (gridGraph κ co).vector.map
      (fun n => (n.coordinates, n.graphs.map GraphRelation.vertex_index)) =
      gridStructList := by
  simp [gridGraph, buildBuffer, gridConnections, latChain, lngChain, diagChain, gridStructList,
    VertexBuffer.append, VertexBuffer.add, VertexBuffer.update,
    positionOfPoint, VertexSpherePoint.has_point, cZ, pZ]

theorem gridGraph_length (κ : SphereConnection ℤ → ℚ) (co : CelestialObject) :
    (gridGraph κ co).vector.length = 31 := by
  have h := congrArg List.length (gridGraph_struct κ co)
  simpa [gridStructList] using h

theorem gridGraph_get?_struct (κ : SphereConnection ℤ → ℚ) (co : CelestialObject) (i : ℕ) :
    ((gridGraph κ co).vector.get? i).map
      (fun n => (n.coordinates, n.graphs.map GraphRelation.vertex_index)) =
    gridStructList.get? i := by
  rw [← gridGraph_struct κ co, List.get?_map]

theorem gridGraph_coordsAt (κ : SphereConnection ℤ → ℚ) (co : CelestialObject) (i : ℕ) :
    coordsAt (gridGraph κ co) i = (gridStructList.get? i).map Prod.fst := by
  rw [← gridGraph_get?_struct]
  unfold coordsAt
  cases (gridGraph κ co).vector.get? i with
  | none => rfl
  | some node => rfl

theorem gridGraph_nbrIdx (κ : SphereConnection ℤ → ℚ) (co : CelestialObject) (i : ℕ) :
    nbrIdxList (gridGraph κ co) i = ((gridStructList.get? i).map Prod.snd).getD [] := by
  rw [← gridGraph_get?_struct]
  unfold nbrIdxList graphsAt
  cases (gridGraph κ co).vector.get? i with
  | none => rfl
  | some node => rfl

theorem grid_who_lists (κ : SphereConnection ℤ → ℚ) (co : CelestialObject) {d a b : ℕ}
    (hd : ∀ i ∈ List.range 31, d ∈ ((gridStructList.get? i).map Prod.snd).getD [] →
      i = a ∨ i = b) :
    ∀ i, d ∈ nbrIdxList (gridGraph κ co) i → i = a ∨ i = b := by
  intro i hi
  rw [gridGraph_nbrIdx] at hi
  by_cases h31 : i < 31
  · exact hd i (List.mem_range.mpr h31) hi
  · exfalso
    rw [List.get?_eq_none.mpr (by rw [show gridStructList.length = 31 from rfl]; omega)] at hi
    simp at hi

theorem parent_step (vb : VertexBuffer α) (s : Dijkstra) (hinv : SInv vb s) {e : ℕ}
    (he : e ∈ s.processed) (hes : e ≠ s.start_index) :
    ∃ p, lookupA s.parents e = some (some p) ∧ p ∈ s.processed ∧ e ∈ nbrIdxList vb p ∧
      s.processed.indexOf p < s.processed.indexOf e := by
  obtain ⟨p, hp⟩ := hinv.settled_parent e he hes
  obtain ⟨h1, h2⟩ := hinv.parent_good e p hp
  exact ⟨p, hp, h1, h2, hinv.parent_order e p hp he⟩

theorem parent_forced (vb : VertexBuffer α) (s : Dijkstra) (hinv : SInv vb s)
    {e succ a : ℕ} (he : e ∈ s.processed) (hes : e ≠ s.start_index)
    (hsucc : lookupA s.parents succ = some (some e)) (hsuccmem : succ ∈ s.processed)
    (hwho : ∀ i, e ∈ nbrIdxList vb i → i = a ∨ i = succ) :
    lookupA s.parents e = some (some a) ∧ a ∈ s.processed ∧ e ∈ nbrIdxList vb a ∧
      s.processed.indexOf a < s.processed.indexOf e := by
  obtain ⟨p, hp, hpm, hpn, hpo⟩ := parent_step vb s hinv he hes
  rcases hwho p hpn with rfl | rfl
  · exact ⟨hp, hpm, hpn, hpo⟩
  · exfalso
    have h1 := hinv.parent_order p e hsucc hsuccmem
    omega

/-- Every grid connection has distinct endpoints. -/
theorem grid_valid : ∀ c ∈ gridConnections, c.start ≠ c.finish := by decide

/-- The grid node coordinates are pairwise distinct. -/
theorem gridCoords_nodup : gridCoords.Nodup := by decide

/-- A node read out of the grid buffer carries the coordinates recorded at the same
position of `gridCoords`. -/
theorem grid_coords_get (κ : SphereConnection ℤ → ℚ) (co : CelestialObject)
    {k : ℕ} {nk : VertexSpherePoint ℤ} (hget : (gridGraph κ co).vector.get? k = some nk) :
    gridCoords.get? k = some nk.coordinates := by
  have h1 : coordsAt (gridGraph κ co) k = some nk.coordinates := by
    unfold coordsAt
    rw [hget]
    rfl
  rw [gridGraph_coordsAt] at h1
  have h2 : (gridStructList.map Prod.fst).get? k = some nk.coordinates := by
    rw [List.get?_map]
    exact h1
  rw [show gridStructList.map Prod.fst = gridCoords from rfl] at h2
  exact h2

/-- On the grid graph, a query point strictly closest to the coordinates stored at
index `m` resolves to nearest-node index `m`. -/
theorem grid_gcp (κ : SphereConnection ℤ → ℚ) (co : CelestialObject)
    {q : SpherePoint ℤ} {m : ℕ}
    (hq : ∀ r ∈ gridCoords, r ≠ q → κ ⟨q, q⟩ < κ ⟨q, r⟩)
    (hm : gridCoords.get? m = some q) (hm31 : m < 31) :
    get_closest_point κ q (gridGraph κ co) = m := by
  have hcm : coordsAt (gridGraph κ co) m = some q := by
    rw [gridGraph_coordsAt]
    rw [show (gridStructList.get? m).map Prod.fst =
      (gridStructList.map Prod.fst).get? m from (List.get?_map _ _ _).symm]
    exact hm
  obtain ⟨nm, hnm, hnmc⟩ := Option.map_eq_some'.mp hcm
  apply get_closest_point_eq_of_strict κ q _ hnm
  intro k nk hget hkne
  rw [hnmc]
  have hkc := grid_coords_get κ co hget
  have hkmem : nk.coordinates ∈ gridCoords := List.get?_mem hkc
  have hklt : k < 31 := by
    by_contra hge
    rw [List.get?_eq_none.mpr (by rw [show gridCoords.length = 31 from rfl]; omega)] at hkc
    simp at hkc
  have hkne2 : nk.coordinates ≠ q := by
    intro heq
    apply hkne
    exact List.get?_inj (by rw [show gridCoords.length = 31 from rfl]; omega)
      gridCoords_nodup (by rw [hkc, heq, hm])
  exact hq nk.coordinates hkmem hkne2

/-- The diagonal index chain is a walk of the grid graph. -/
theorem grid_adjChain (κ : SphereConnection ℤ → ℚ) (co : CelestialObject) :
    AdjChain (gridGraph κ co) diagIdxChain := by
  unfold AdjChain diagIdxChain
  simp only [List.chain'_cons, List.chain'_singleton, gridGraph_nbrIdx, and_true]
  decide

/-- C1: on the graph built from the three unit-step chains out of `(0,0)` (latitude
chain to `(10,0)`, longitude chain to `(0,10)`, diagonal chain to `(10,10)`), the
facade query from `(0,0)` to `(10,10)` terminates and returns exactly the diagonal
chain's connections, segment for segment and in order — not the two-leg
latitude+longitude route.  The cost function is arbitrary; the two hypotheses only
pin the nearest-node resolution of the query points (each query point is strictly
closest to its own node, as for the geodesic cost).  The route itself is forced:
node `30` (`(10,10)`) is reachable only through the diagonal chain, so the
predecessor links the search leaves can only trace it. -/
theorem grid_shortest_path_diagonal (κ : SphereConnection ℤ → ℚ) (co : CelestialObject)
    (h1 : ∀ q ∈ gridCoords, q ≠ pZ 0 0 → κ ⟨pZ 0 0, pZ 0 0⟩ < κ ⟨pZ 0 0, q⟩)
    (h2 : ∀ q ∈ gridCoords, q ≠ pZ 10 10 → κ ⟨pZ 10 10, pZ 10 10⟩ < κ ⟨pZ 10 10, q⟩) :
    find_shortest_path κ (pZ 0 0) (pZ 10 10) (gridGraph κ co) 40 = some (some diagChain) := by
  have hlen : (gridGraph κ co).vector.length = 31 := gridGraph_length κ co
  have hg1 : get_closest_point κ (pZ 0 0) (gridGraph κ co) = 0 :=
    grid_gcp κ co h1 rfl (by omega)
  have hg2 : get_closest_point κ (pZ 10 10) (gridGraph κ co) = 30 :=
    grid_gcp κ co h2 rfl (by omega)
  have hwf : WfB (gridGraph κ co) := (buildBuffer_WfB κ co grid_valid).1
  have hinit : SInv (gridGraph κ co) (Dijkstra.new 0 30) :=
    SInv_init _ (by rw [hlen]; decide) (by rw [hlen]; decide) (by decide)
  have hterm : (30 : ℕ) ∈ (searchGo (gridGraph κ co) 40 (Dijkstra.new 0 30)).processed :=
    searchGo_reaches (gridGraph κ co) hwf diagIdxChain (grid_adjChain κ co)
      40 (Dijkstra.new 0 30) hinit rfl rfl (by rw [hlen]; decide)
  have hfinv : SInv (gridGraph κ co) (searchGo (gridGraph κ co) 40 (Dijkstra.new 0 30)) :=
    searchGo_SInv _ hwf 40 hinit
  set F := searchGo (gridGraph κ co) 40 (Dijkstra.new 0 30) with hF
  have hFstart : F.start_index = 0 := by
    rw [hF, searchGo_start]
    rfl
  have hFfin : F.finish_index = 30 := by
    rw [hF, searchGo_finish]
    rfl
  obtain ⟨p30, hp30, hp30m, hp30n, _⟩ :=
    parent_step (gridGraph κ co) F hfinv hterm (by rw [hFstart]; decide)
  have hp30e : p30 = 29 := by
    rcases grid_who_lists κ co (d := 30) (a := 29) (b := 29) (by decide) p30 hp30n
      with h | h <;> exact h
  subst hp30e
  obtain ⟨hp29, hp29m, -, -⟩ := parent_forced (gridGraph κ co) F hfinv hp30m
    (by rw [hFstart]; decide) hp30 hterm
    (grid_who_lists κ co (d := 29) (a := 28) (b := 30) (by decide))
  obtain ⟨hp28, hp28m, -, -⟩ := parent_forced (gridGraph κ co) F hfinv hp29m
    (by rw [hFstart]; decide) hp29 hp30m
    (grid_who_lists κ co (d := 28) (a := 27) (b := 29) (by decide))
  obtain ⟨hp27, hp27m, -, -⟩ := parent_forced (gridGraph κ co) F hfinv hp28m
    (by rw [hFstart]; decide) hp28 hp29m
    (grid_who_lists κ co (d := 27) (a := 26) (b := 28) (by decide))
  obtain ⟨hp26, hp26m, -, -⟩ := parent_forced (gridGraph κ co) F hfinv hp27m
    (by rw [hFstart]; decide) hp27 hp28m
    (grid_who_lists κ co (d := 26) (a := 25) (b := 27) (by decide))
  obtain ⟨hp25, hp25m, -, -⟩ := parent_forced (gridGraph κ co) F hfinv hp26m
    (by rw [hFstart]; decide) hp26 hp27m
    (grid_who_lists κ co (d := 25) (a := 24) (b := 26) (by decide))
  obtain ⟨hp24, hp24m, -, -⟩ := parent_forced (gridGraph κ co) F hfinv hp25m
    (by rw [hFstart]; decide) hp25 hp26m
    (grid_who_lists κ co (d := 24) (a := 23) (b := 25) (by decide))
  obtain ⟨hp23, hp23m, -, -⟩ := parent_forced (gridGraph κ co) F hfinv hp24m
    (by rw [hFstart]; decide) hp24 hp25m
    (grid_who_lists κ co (d := 23) (a := 22) (b := 24) (by decide))
  obtain ⟨hp22, hp22m, -, -⟩ := parent_forced (gridGraph κ co) F hfinv hp23m
    (by rw [hFstart]; decide) hp23 hp24m
    (grid_who_lists κ co (d := 22) (a := 21) (b := 23) (by decide))
  obtain ⟨hp21, hp21m, -, -⟩ := parent_forced (gridGraph κ co) F hfinv hp22m
    (by rw [hFstart]; decide) hp22 hp23m
    (grid_who_lists κ co (d := 21) (a := 0) (b := 22) (by decide))
  have hca : ∀ i : ℕ, coordsAt (gridGraph κ co) i = (gridStructList.get? i).map Prod.fst :=
    gridGraph_coordsAt κ co
  have hPC : ParentChain (gridGraph κ co) F 30
      [(29, pZ 9 9), (28, pZ 8 8), (27, pZ 7 7), (26, pZ 6 6), (25, pZ 5 5),
       (24, pZ 4 4), (23, pZ 3 3), (22, pZ 2 2), (21, pZ 1 1), (0, pZ 0 0)] := by
    simp only [ParentChain]
    refine ⟨by rw [hFstart]; decide, hp30, by rw [hca]; rfl,
            by rw [hFstart]; decide, hp29, by rw [hca]; rfl,
            by rw [hFstart]; decide, hp28, by rw [hca]; rfl,
            by rw [hFstart]; decide, hp27, by rw [hca]; rfl,
            by rw [hFstart]; decide, hp26, by rw [hca]; rfl,
            by rw [hFstart]; decide, hp25, by rw [hca]; rfl,
            by rw [hFstart]; decide, hp24, by rw [hca]; rfl,
            by rw [hFstart]; decide, hp23, by rw [hca]; rfl,
            by rw [hFstart]; decide, hp22, by rw [hca]; rfl,
            by rw [hFstart]; decide, hp21, by rw [hca]; rfl,
            hFstart.symm⟩
  have hwalk := walkParents_of_chain (gridGraph κ co) F
    [(29, pZ 9 9), (28, pZ 8 8), (27, pZ 7 7), (26, pZ 6 6), (25, pZ 5 5),
     (24, pZ 4 4), (23, pZ 3 3), (22, pZ 2 2), (21, pZ 1 1), (0, pZ 0 0)]
    30 40 hPC (by decide) (pZ 10 10) []
  have hc30 : coordsAt (gridGraph κ co) 30 = some (pZ 10 10) := by
    rw [hca]
    rfl
  obtain ⟨fnode, hf1, hf2⟩ := Option.map_eq_some'.mp hc30
  have hcalc : Dijkstra.calculate_path (gridGraph κ co) (Dijkstra.new 0 30) 40 =
      some diagChain := by
    unfold Dijkstra.calculate_path
    dsimp only
    rw [← hF, if_pos (by rw [hFfin]; exact hterm), hFfin, hf1]
    show (walkParents (gridGraph κ co) F 40 30 fnode.coordinates []).map List.reverse =
      some diagChain
    rw [hf2, hwalk]
    rfl
  unfold find_shortest_path
  rw [if_neg]
  · dsimp only
    rw [hg1, hg2, if_neg (by decide), hcalc]
    rfl
  · intro h
    rcases h with h | h
    · exact absurd h (by decide)
    · rw [hlen] at h
      exact absurd h (by decide)

/-- Witness for `grid_shortest_path_diagonal`: taxicab cost on the integer grid. -/
theorem grid_shortest_path_diagonal_witness :
    find_shortest_path taxi (pZ 0 0) (pZ 10 10) (gridGraph taxi CelestialObject.MERCURY) 40 =
      some (some diagChain) :=
  grid_shortest_path_diagonal taxi CelestialObject.MERCURY
    (by
      intro q hq hne
      fin_cases hq
      · exact absurd rfl hne
      all_goals norm_num [taxi, pZ])
    (by
      intro q hq hne
      fin_cases hq
      all_goals first
        | exact absurd rfl hne
        | norm_num [taxi, pZ])
